import Mathlib

/-! PolyphonyScheduler: voice-slot bookkeeping

A shallow embedding of `Source/PolyphonyScheduler.h` and `Source/PolyphonyScheduler.cpp`.

* The slot array `mVoices[kNumVoices]` is a list; `kNumVoices` (declared in `SynthGlobals.h`)
  is the length of that list, so every capacity is covered.
* `int` values are `Int`; the values that occur (slot indices, loop counters) stay far from
  the 32-bit bounds.
* `double` times are modelled by `Int` with its order (the totally ordered, NaN-free part of
  `double`, at integer values); `std::numeric_limits<double>::max()` is the integer `DBL_MAX`.
* `mPitch` is a `float`. Every value it takes is an integer (a converted `int` pitch, or the
  sentinel `-1`), so the field is the `Int` value of the float; the conversion of an `int` to
  `float` on assignment and in comparisons is `floatOfInt`, which rounds above `2^24`.
* An access outside the array, or a failed `assert`, is undefined behaviour: the operation
  returns `none`.
* The receiver callbacks made by an operation are returned as a list, in call order.
-/

/-- The number of low bits that the conversion to `float` rounds away from a magnitude `a`:
the least `k` with `a / 2^k < 2^24` (the first argument bounds the search). -/
def floatOfInt.dropBits : Nat → Nat → Nat
  | 0, _ => 0
  | fuel + 1, a => if a < 16777216 then 0 else floatOfInt.dropBits fuel (a / 2) + 1

/-- The value of `(float)n` for an `int` `n`, the implicit conversion at `mPitch = pitch` and
`mPitch == pitch`: `n` itself up to magnitude `2^24`, and above that the nearest number with a
24-bit significand, ties to the even significand. (An `int` is below `2^31` in magnitude, far
inside the exponent range of `float`.) -/
def floatOfInt (n : Int) : Int :=
  if n.natAbs ≤ 16777216 then n
  else
    let k := floatOfInt.dropBits n.natAbs n.natAbs
    let q := n.natAbs / 2 ^ k
    let r := n.natAbs % 2 ^ k
    let q1 := if 2 ^ (k - 1) < r ∨ (r = 2 ^ (k - 1) ∧ q % 2 = 1) then q + 1 else q
    Int.sign n * ((q1 * 2 ^ k : Nat) : Int)

/-- Slot record `SchedVoiceInfo` with its default member initialisers; `mPitch` is the value
of the `float` field. -/
structure SchedVoiceInfo where
  mPitch : Int := -1
  mTime : Int := 0
  mNoteOn : Bool := false
deriving DecidableEq, Repr

/-- `ModulationParameters` is declared in `ModulationChain.h`; the scheduler only hands the
value on to the receiver, so it is a token here. -/
abbrev ModulationParameters := Nat

/-- One call received by `IPolyphonyReceiver`. -/
inductive ReceiverCall where
  | StartVoice (voiceId : Nat) (time : Int) (pitch : Int) (amount : Int)
      (modulations : ModulationParameters)
  | StopVoice (voiceId : Nat) (pitch : Int) (time : Int)
deriving DecidableEq, Repr

/-- The value of `std::numeric_limits<double>::max()`, `(2 - 2^-52) * 2^1023`. -/
def DBL_MAX : Int :=
  179769313486231570814527423731704356798070567525844996598917476803157260780028538760589558632766878171540458953514382464234321326889464182768467546703537516986049910576551282076245490090389328944075868508455133942304583236903222948165808559332123348274797826204144723168738177180919299881250404026184124858368

/-- Read of `mVoices[i]`; `none` when `i` is outside the array. -/
def readVoice (vs : List SchedVoiceInfo) (i : Int) : Option SchedVoiceInfo :=
  if 0 ≤ i then vs[i.toNat]? else none

/-- Members of `class PolyphonyScheduler` (the receiver pointer is the returned call list). -/
structure PolyphonyScheduler where
  mVoices : List SchedVoiceInfo
  mAllowStealing : Bool := true
  mLastVoice : Int := -1
  mVoiceLimit : Int
deriving DecidableEq, Repr

namespace PolyphonyScheduler

/-- The array bound `kNumVoices`. -/
def kNumVoices (s : PolyphonyScheduler) : Nat := s.mVoices.length

/-- The constructor: `n` default slots, stealing allowed, cursor `-1`, limit `kNumVoices`. -/
def init (n : Nat) : PolyphonyScheduler :=
  ⟨List.replicate n ⟨-1, 0, false⟩, true, -1, n⟩

/-- The inline setter `SetVoiceLimit`. -/
def SetVoiceLimit (s : PolyphonyScheduler) (limit : Int) : PolyphonyScheduler :=
  { s with mVoiceLimit := limit }

/-- The free-slot loop of `Start` (lines 38-46): `n` iterations remain, the counter is `i`.
The result is the value of `voiceIdx` after the loop (`-1` when nothing was free). -/
def Start.findFree (s : PolyphonyScheduler) : Nat → Nat → Option Int
  | 0, _ => some (-1)
  | n + 1, i =>
    let check := Int.tmod ((i : Int) + s.mLastVoice + 1) s.mVoiceLimit
    match readVoice s.mVoices check with
    | none => none
    | some v => if v.mPitch = -1 then some check else Start.findFree s n (i + 1)

/-- The stealing loop of `Start` (lines 55-62): `n` iterations remain, the counter is `i`,
and `oldest`, `oldestIndex` are the running minimum. -/
def Start.findOldest (s : PolyphonyScheduler) : Nat → Nat → Int → Nat → Option Nat
  | 0, _, _, oldestIndex => some oldestIndex
  | n + 1, i, oldest, oldestIndex =>
    match readVoice s.mVoices i with
    | none => none
    | some v =>
      if v.mTime < oldest then Start.findOldest s n (i + 1) v.mTime i
      else Start.findOldest s n (i + 1) oldest oldestIndex

/-- Lines 81-87 of `Start`: move the cursor, fill the slot (the `int` pitch is converted to the
`float` field), call `StartVoice` with the `int` pitch. -/
def Start.assign (s : PolyphonyScheduler) (voiceIdx : Int) (time pitch amount : Int)
    (modulation : ModulationParameters) : Option (PolyphonyScheduler × List ReceiverCall) :=
  match readVoice s.mVoices voiceIdx with
  | none => none
  | some _ =>
    some ({ s with
            mLastVoice := voiceIdx
            mVoices := s.mVoices.set voiceIdx.toNat ⟨floatOfInt pitch, time, true⟩ },
          [ReceiverCall.StartVoice voiceIdx.toNat time pitch amount modulation])

/-- `PolyphonyScheduler::Start`. -/
def Start (s : PolyphonyScheduler) (time pitch amount voiceIdx : Int)
    (modulation : ModulationParameters) : Option (PolyphonyScheduler × List ReceiverCall) :=
  if ¬ voiceIdx < s.kNumVoices then none
  else if voiceIdx ≠ -1 ∧ readVoice s.mVoices voiceIdx = none then none
  else
    match (if voiceIdx = -1 then Start.findFree s s.mVoiceLimit.toNat 0 else some voiceIdx) with
    | none => none
    | some voiceIdx =>
      if voiceIdx = -1 then
        if s.mAllowStealing then
          match readVoice s.mVoices 0 with
          | none => none
          | some v0 =>
            match Start.findOldest s (s.mVoiceLimit - 1).toNat 1 v0.mTime 0 with
            | none => none
            | some oldestIndex => Start.assign s oldestIndex time pitch amount modulation
        else some (s, [])
      else Start.assign s voiceIdx time pitch amount modulation

/-- The search loop of `Stop` (lines 95-102): `n` iterations remain, the counter is `i`. The
test `mPitch == pitch` compares the `float` field with the converted `int`. -/
def Stop.findOldest (s : PolyphonyScheduler) (pitch : Int) : Nat → Nat → Int → Int → Option Int
  | 0, _, _, voiceIdx => some voiceIdx
  | n + 1, i, oldest, voiceIdx =>
    match readVoice s.mVoices i with
    | none => none
    | some v =>
      if v.mPitch = floatOfInt pitch ∧ v.mNoteOn = true ∧ v.mTime < oldest then
        Stop.findOldest s pitch n (i + 1) v.mTime i
      else Stop.findOldest s pitch n (i + 1) oldest voiceIdx

/-- Lines 107-110, shared by `Stop` and `KillAll`: clear slot `i`, then call `StopVoice` with
the pitch and time fields read back from the slot. -/
def clearVoice (vs : List SchedVoiceInfo) (i : Nat) (v : SchedVoiceInfo) :
    Option (List SchedVoiceInfo × ReceiverCall) :=
  let vs1 := vs.set i { v with mNoteOn := false, mPitch := -1 }
  match readVoice vs1 i with
  | none => none
  | some w => some (vs1, ReceiverCall.StopVoice i w.mPitch w.mTime)

/-- `PolyphonyScheduler::Stop`; the `time` argument is not used by the body. -/
def Stop (s : PolyphonyScheduler) (_time pitch voiceIdx : Int) :
    Option (PolyphonyScheduler × List ReceiverCall) :=
  match (if voiceIdx = -1 then Stop.findOldest s pitch s.mVoiceLimit.toNat 0 DBL_MAX (-1)
         else some voiceIdx) with
  | none => none
  | some voiceIdx =>
    if voiceIdx > -1 then
      match readVoice s.mVoices voiceIdx with
      | none => none
      | some v =>
        if v.mPitch = floatOfInt pitch ∧ v.mNoteOn = true then
          match clearVoice s.mVoices voiceIdx.toNat v with
          | none => none
          | some (vs, c) => some ({ s with mVoices := vs }, [c])
        else some (s, [])
    else some (s, [])

/-- The loop of `KillAll`: `n` iterations remain, the counter is `i`, `vs` is the array so far
and `calls` the callbacks made so far. -/
def KillAll.loop : Nat → Nat → List SchedVoiceInfo → List ReceiverCall →
    Option (List SchedVoiceInfo × List ReceiverCall)
  | 0, _, vs, calls => some (vs, calls)
  | n + 1, i, vs, calls =>
    match readVoice vs i with
    | none => none
    | some v =>
      if v.mNoteOn = true then
        match clearVoice vs i v with
        | none => none
        | some (vs1, c) => KillAll.loop n (i + 1) vs1 (calls ++ [c])
      else KillAll.loop n (i + 1) vs calls

/-- `PolyphonyScheduler::KillAll`. -/
def KillAll (s : PolyphonyScheduler) : Option (PolyphonyScheduler × List ReceiverCall) :=
  match KillAll.loop s.kNumVoices 0 s.mVoices [] with
  | none => none
  | some (vs, calls) => some ({ s with mVoices := vs }, calls)

/-- One call of the public interface. -/
inductive Op where
  | start (time pitch amount voiceIdx : Int) (modulation : ModulationParameters)
  | stop (time pitch voiceIdx : Int)
  | setVoiceLimit (limit : Int)
  | killAll
deriving DecidableEq, Repr

/-- Perform one call. -/
def step (s : PolyphonyScheduler) : Op → Option (PolyphonyScheduler × List ReceiverCall)
  | .start time pitch amount voiceIdx modulation => Start s time pitch amount voiceIdx modulation
  | .stop time pitch voiceIdx => Stop s time pitch voiceIdx
  | .setVoiceLimit limit => some (SetVoiceLimit s limit, [])
  | .killAll => KillAll s

/-- Perform a sequence of calls, collecting the callbacks. -/
def run (s : PolyphonyScheduler) : List Op → Option (PolyphonyScheduler × List ReceiverCall)
  | [] => some (s, [])
  | op :: ops =>
    match step s op with
    | none => none
    | some (s1, c1) =>
      match run s1 ops with
      | none => none
      | some (s2, c2) => some (s2, c1 ++ c2)

/-- States reached from the constructed scheduler with `n` slots by some sequence of calls. -/
def Reachable (n : Nat) (s : PolyphonyScheduler) : Prop :=
  ∃ ops calls, run (init n) ops = some (s, calls)

/-- Representation invariant: the cursor is `-1` or a slot index. -/
def WellFormed (s : PolyphonyScheduler) : Prop :=
  -1 ≤ s.mLastVoice ∧ s.mLastVoice < s.kNumVoices

instance (s : PolyphonyScheduler) : Decidable (WellFormed s) := by
  unfold WellFormed
  infer_instance

/-- All of the first `mVoiceLimit` slots exist and hold a pitch other than `-1`. -/
def AllOccupied (s : PolyphonyScheduler) : Prop :=
  ∀ i : Nat, (i : Int) < s.mVoiceLimit → ∃ v, s.mVoices[i]? = some v ∧ v.mPitch ≠ -1

/-- Loop invariant of the search in `Stop` after slots `0 .. i-1`, for the `float` value
`pitch` that the slots are compared with: either nothing was selected (`voiceIdx = -1`,
`oldest = DBL_MAX`, and no sounding slot with the pitch started before `DBL_MAX`), or `voiceIdx`
is the first slot of least start time among the sounding slots with the pitch. -/
def StopScan (s : PolyphonyScheduler) (pitch : Int) (i : Nat) (oldest voiceIdx : Int) : Prop :=
  (voiceIdx = -1 ∧ oldest = DBL_MAX ∧
    ∀ j : Nat, j < i → ∀ v, s.mVoices[j]? = some v → v.mPitch = pitch → v.mNoteOn = true →
      DBL_MAX ≤ v.mTime) ∨
  (∃ r : Nat, voiceIdx = (r : Int) ∧ r < i ∧ ∃ vr, s.mVoices[r]? = some vr ∧
    vr.mPitch = pitch ∧ vr.mNoteOn = true ∧ vr.mTime = oldest ∧ oldest < DBL_MAX ∧
    (∀ j : Nat, j < i → ∀ v, s.mVoices[j]? = some v → v.mPitch = pitch → v.mNoteOn = true →
      oldest ≤ v.mTime) ∧
    (∀ j : Nat, j < r → ∀ v, s.mVoices[j]? = some v → v.mPitch = pitch → v.mNoteOn = true →
      oldest < v.mTime))

/-- A slot record after the body of the `KillAll` loop has run on it. -/
def killSlot (v : SchedVoiceInfo) : SchedVoiceInfo :=
  if v.mNoteOn = true then ⟨-1, v.mTime, false⟩ else v

/-- The `StopVoice` call the `KillAll` loop makes at index `j` of the array `vs`, if any. -/
def stopCallAt (vs : List SchedVoiceInfo) (j : Nat) : Option ReceiverCall :=
  match vs[j]? with
  | some v => if v.mNoteOn = true then some (ReceiverCall.StopVoice j (-1) v.mTime) else none
  | none => none

/-- Every slot that is not sounding has the free pitch `-1`. -/
def NoteOffFree (s : PolyphonyScheduler) : Prop :=
  ∀ (j : Nat) (v : SchedVoiceInfo), s.mVoices[j]? = some v → v.mNoteOn = false → v.mPitch = -1

/-- A note-on event delivered to `Start` with no explicit slot (`voiceIdx = -1`). -/
structure Note where
  time : Int
  pitch : Int
  amount : Int
  modulation : ModulationParameters
deriving DecidableEq, Repr

/-- The `Start` call for a note. -/
def Note.start (x : Note) : Op :=
  .start x.time x.pitch x.amount (-1) x.modulation

/-- Replay of a callback trace, where `times i` is the `time` of the latest `StartVoice` for
slot `i` so far: every `StopVoice(i, pitch, time)` in the trace has `pitch = -1` and `time`
equal to that start time. -/
def stopArgsOk : (Nat → Option Int) → List ReceiverCall → Prop
  | _, [] => True
  | times, .StartVoice i t _ _ _ :: cs => stopArgsOk (Function.update times i (some t)) cs
  | times, .StopVoice i p t :: cs => p = -1 ∧ times i = some t ∧ stopArgsOk times cs

/-- The table `times` holds the start time of every sounding slot of `s`. -/
def TimesInv (s : PolyphonyScheduler) (times : Nat → Option Int) : Prop :=
  ∀ (i : Nat) (v : SchedVoiceInfo), s.mVoices[i]? = some v → v.mNoteOn = true →
    times i = some v.mTime

/-- The text of one line of `DrawDebug`: `"voice i unused"`, or `"voice i used: pitch"`
followed by `" (note on)"` or `" (note off)"`. -/
inductive DebugText where
  | unused (i : Nat)
  | used (i : Nat) (pitch : Int) (noteOn : Bool)
deriving DecidableEq, Repr

/-- The colour `DrawDebug` sets for a slot (lines 136-141): grey, green or red. -/
def DrawDebug.color (v : SchedVoiceInfo) : Nat × Nat × Nat :=
  if v.mPitch = -1 then (100, 100, 100)
  else if v.mNoteOn = true then (0, 255, 0)
  else (255, 0, 0)

/-- The string `outputLine` that `DrawDebug` builds for slot `i` (lines 142-146). -/
def DrawDebug.outputLine (i : Nat) (v : SchedVoiceInfo) : DebugText :=
  if v.mPitch = -1 then DebugText.unused i
  else DebugText.used i v.mPitch v.mNoteOn

/-- `PolyphonyScheduler::DrawDebug`: the colour and text drawn for each of the `kNumVoices`
slots, in order (the position arguments only place the text). -/
def DrawDebug (s : PolyphonyScheduler) : List ((Nat × Nat × Nat) × DebugText) :=
  (List.range s.kNumVoices).filterMap
    (fun i => (s.mVoices[i]?).map (fun v => (DrawDebug.color v, DrawDebug.outputLine i v)))

/-- The sequence contains no `Start` with pitch `-1`. -/
def NoFreePitchStart (ops : List Op) : Prop :=
  ∀ (time pitch amount voiceIdx : Int) (modulation : ModulationParameters),
    Op.start time pitch amount voiceIdx modulation ∈ ops → pitch ≠ -1

/-- Every sounding slot holds a pitch other than `-1`. -/
def NoteOnOccupied (s : PolyphonyScheduler) : Prop :=
  ∀ (j : Nat) (v : SchedVoiceInfo), s.mVoices[j]? = some v → v.mNoteOn = true → v.mPitch ≠ -1

/-! ### Example states -/

/-- A state with slots 0 and 2 sounding, cursor at 0, limit 4. -/
def exFreeSlot : PolyphonyScheduler :=
  ⟨[⟨60, 1, true⟩, ⟨-1, 0, false⟩, ⟨62, 2, true⟩, ⟨-1, 0, false⟩], true, 0, 4⟩

/-- Two sounding slots, limit 2, stealing switched off. -/
def exFullNoSteal : PolyphonyScheduler :=
  ⟨[⟨60, 1, true⟩, ⟨62, 2, true⟩], false, 1, 2⟩

/-- Four sounding slots, the oldest start time shared by slots 1 and 2, cursor at 2. -/
def exFullSteal : PolyphonyScheduler :=
  ⟨[⟨60, 5, true⟩, ⟨62, 2, true⟩, ⟨64, 2, true⟩, ⟨65, 7, true⟩], true, 2, 4⟩

/-- Pitch 60 in slot 0 and pitch 62 in slot 1, after the voice limit was lowered to 1. -/
def exBeyondLimit : PolyphonyScheduler :=
  ⟨[⟨60, 1, true⟩, ⟨62, 2, true⟩], true, 1, 1⟩

/-- One slot sounding pitch 60, started at time `DBL_MAX`. -/
def exMaxTime : PolyphonyScheduler :=
  ⟨[⟨60, DBL_MAX, true⟩], true, 0, 1⟩

/-- Pitch 62 sounding twice within the limit (slots 1 and 2, the older in slot 2). -/
def exDuplicates : PolyphonyScheduler :=
  ⟨[⟨60, 1, true⟩, ⟨62, 7, true⟩, ⟨62, 4, true⟩, ⟨-1, 0, false⟩], true, 2, 4⟩

/-- Two notes fill both slots, a third steals slot 0, then pitch 62 is stopped and a stop for
a pitch that is not sounding is ignored. -/
def exStealStopRun : List Op :=
  [.start 1 60 100 (-1) 0, .start 2 62 100 (-1) 0, .start 5 67 100 (-1) 0,
    .stop 6 62 (-1), .stop 7 99 (-1)]

end PolyphonyScheduler

/-! PolyphonicContainer: voice instances

A shallow embedding of `StartVoice` and `StopVoice` of `Source/PolyphonicContainer.cpp`.

* A module or a voice instance is a pointer in the source; here it is a number standing for the
  address. `new` hands out the next unused number.
* The copy made through `WriteModules`, `SaveState`, `LoadModules`, `LoadState` (graph code that
  is not among the sources) enters as `VoiceClone`: the modules of the new instance, their
  paths, and the lookup `FindModule` into the template.
* A patch cable source is the list of its cables' targets, in order; `std::unordered_map` is an
  association list with unique keys, used only through `find` and `try_emplace`.
* Log messages, the final `PlayNoteOutput`, `Clear` and the destruction of an instance are
  returned as a list of events, in order.
-/

/-- An `IDrawableModule*`. -/
abbrev ModuleRef := Nat

/-- The `std::unordered_map<IDrawableModule*, IDrawableModule*>` of a voice instance. -/
abbrev ModuleMap := List (ModuleRef × ModuleRef)

/-- `unordered_map::find`: the value stored under `key`, if any. -/
def ModuleMap.find : ModuleMap → ModuleRef → Option ModuleRef
  | [], _ => none
  | (k, v) :: rest, key => if k = key then some v else ModuleMap.find rest key

/-- `unordered_map::try_emplace`: insert `key -> value` unless `key` is present; the flag tells
whether the insertion took place. -/
def ModuleMap.try_emplace (m : ModuleMap) (key value : ModuleRef) : ModuleMap × Bool :=
  match m.find key with
  | some _ => (m, false)
  | none => (m ++ [(key, value)], true)

/-- Members of `struct PolyphonicVoiceContainer`: `addr` is the address of the instance, `name`
the slot number appended to `"voice"`, `container` the modules it holds, `source` the targets
of the cables of its patch cable source. -/
structure PolyphonicVoiceContainer where
  addr : Nat
  name : Nat
  container : List ModuleRef
  source : List ModuleRef
  module_map : ModuleMap
deriving DecidableEq, Repr

/-- The members of `class PolyphonicContainer` that `StartVoice` and `StopVoice` touch:
the children registered with the `IDrawableModule` base, the targets of the cables of
`mVoiceNoteCable` after the `dynamic_cast` (`none` for a target that is no module), and the
array `mVoices[kNumVoices]`. `nextAddr` is the next address `new` returns. -/
structure PolyphonicContainer where
  mChildren : List Nat
  mVoiceNoteCable : List (Option ModuleRef)
  mVoices : List (Option PolyphonicVoiceContainer)
  nextAddr : Nat
deriving DecidableEq, Repr

/-- The copy of the template that the graph code produces for a new voice instance:
`allModules` is what `voice->container.GetAllModules` returns after `LoadModules` and
`LoadState`, `Path` is `module->Path()`, and `FindModule` is `mModuleContainer.FindModule`. -/
structure VoiceClone where
  allModules : List ModuleRef
  Path : ModuleRef → Nat
  FindModule : Nat → Option ModuleRef

/-- What `StartVoice` and `StopVoice` do to their collaborators. -/
inductive ContainerEvent where
  | LogCouldntFind (path : Nat)
  | LogFoundDuplicate (path : Nat)
  | PlayNoteOutput (voice : Nat) (time pitch velocity : Int) (voiceId : Nat)
      (modulations : ModulationParameters)
  | Clear (voice : Nat)
  | Delete (voice : Nat)
deriving DecidableEq, Repr

namespace PolyphonicContainer

/-- Modelled from the spec: `IDrawableModule::AddChild` is not among the sources; it registers
the instance under the parent. -/
def AddChild (children : List Nat) (child : Nat) : List Nat :=
  children ++ [child]

/-- Modelled from the spec: `IDrawableModule::RemoveChild` is not among the sources; it
detaches the instance from the parent it was registered under. -/
def RemoveChild (children : List Nat) (child : Nat) : List Nat :=
  children.filter (fun x => x ≠ child)

/-- Modelled from the spec: `PatchCableSource::AddPatchCable` is not among the sources; it
attaches one more connection from the source toward `target`. -/
def AddPatchCable (source : List ModuleRef) (target : ModuleRef) : List ModuleRef :=
  source ++ [target]

/-- The "Map all modules" loop of `StartVoice` (lines 447-464) from the modules still to visit,
the map so far and the messages logged so far. -/
def StartVoice.mapModules (clone : VoiceClone) :
    List ModuleRef → ModuleMap → List ContainerEvent → ModuleMap × List ContainerEvent
  | [], module_map, log => (module_map, log)
  | module :: rest, module_map, log =>
    let path := clone.Path module
    match clone.FindModule path with
    | none =>
      StartVoice.mapModules clone rest module_map (log ++ [ContainerEvent.LogCouldntFind path])
    | some original =>
      let res := module_map.try_emplace original module
      if res.2 = false then
        StartVoice.mapModules clone rest res.1 (log ++ [ContainerEvent.LogFoundDuplicate path])
      else StartVoice.mapModules clone rest res.1 log

/-- The "Repatch note source" loop of `StartVoice` (lines 487-494) from the template cables
still to visit and the cables of the voice's own source so far. -/
def StartVoice.repatch (module_map : ModuleMap) :
    List (Option ModuleRef) → List ModuleRef → List ModuleRef
  | [], source => source
  | target :: rest, source =>
    match target.bind module_map.find with
    | some mapped => StartVoice.repatch module_map rest (AddPatchCable source mapped)
    | none => StartVoice.repatch module_map rest source

/-- The array bound `kNumVoices`. -/
def kNumVoices (c : PolyphonicContainer) : Nat := c.mVoices.length

/-- `PolyphonicContainer::StartVoice`. The constructor of the new instance registers it with
`AddChild`; `mVoices[voiceId].reset(voice)` destroys the instance the slot held, if any; then
the modules are mapped, the note source is repatched and the note is played into the new
instance. A `voiceId` outside the array is undefined behaviour (`none`). -/
def StartVoice (c : PolyphonicContainer) (clone : VoiceClone) (voiceId : Nat)
    (time pitch amount : Int) (modulations : ModulationParameters) :
    Option (PolyphonicContainer × List ContainerEvent) :=
  let addr := c.nextAddr
  let children := AddChild c.mChildren addr
  match c.mVoices[voiceId]? with
  | none => none
  | some previous =>
    let deleted := match previous with
      | some old => [ContainerEvent.Delete old.addr]
      | none => []
    let mapped := StartVoice.mapModules clone clone.allModules [] []
    let source := StartVoice.repatch mapped.1 c.mVoiceNoteCable []
    let voice : PolyphonicVoiceContainer := ⟨addr, voiceId, clone.allModules, source, mapped.1⟩
    some ({ c with
            mChildren := children
            mVoices := c.mVoices.set voiceId (some voice)
            nextAddr := addr + 1 },
          deleted ++ mapped.2
            ++ [ContainerEvent.PlayNoteOutput addr time pitch amount voiceId modulations])

/-- `PolyphonicContainer::StopVoice`: the instance is moved out of the slot; if there was one,
it is removed from the children, its container is cleared, and it is destroyed on return. The
`pitch` and `time` arguments are not used by the body. -/
def StopVoice (c : PolyphonicContainer) (voiceId : Nat) (_pitch _time : Int) :
    Option (PolyphonicContainer × List ContainerEvent) :=
  match c.mVoices[voiceId]? with
  | none => none
  | some none => some (c, [])
  | some (some voice) =>
    some ({ c with
            mVoices := c.mVoices.set voiceId none
            mChildren := RemoveChild c.mChildren voice.addr },
          [ContainerEvent.Clear voice.addr, ContainerEvent.Delete voice.addr])

/-- A template of modules 10, 11, 12 with paths 0, 1, 2, copied as modules 20, 21, 22, 23:
module 23 has path 7, which the template does not have. -/
def exClone : VoiceClone :=
  ⟨[20, 21, 22, 23],
    fun m => if m = 23 then 7 else m - 20,
    fun p => if p < 3 then some (10 + p) else none⟩

/-- One empty slot; the note cable goes to template modules 12 and 10, to a module 15 outside
the template, and to a target that is no module. -/
def exContainer : PolyphonicContainer :=
  ⟨[], [some 12, some 10, some 15, none], [none], 0⟩

/-- A second copy of the same template, as modules 30, 31, 32, 33 (33 has the unknown path). -/
def exClone2 : VoiceClone :=
  ⟨[30, 31, 32, 33],
    fun m => if m = 33 then 7 else m - 30,
    fun p => if p < 3 then some (10 + p) else none⟩

/-- The container `exContainer` after `StartVoice(0, ...)` with the copy `exClone`: slot 0
holds the instance at address 0, which is registered as a child. -/
def exOccupied : PolyphonicContainer :=
  ⟨[0], [some 12, some 10, some 15, none],
    [some ⟨0, 0, [20, 21, 22, 23], [22, 20], [(10, 20), (11, 21), (12, 22)]⟩], 1⟩

end PolyphonicContainer

namespace PolyphonyScheduler

/-! ## The conversion of a pitch to `float` -/

theorem floatOfInt_of_le {n : Int} (h : n.natAbs ≤ 16777216) : floatOfInt n = n := by
  simp [floatOfInt, h]

theorem dropBits_pos {fuel a : Nat} (hf : 0 < fuel) (ha : 16777216 ≤ a) :
    0 < floatOfInt.dropBits fuel a := by
  cases fuel with
  | zero => omega
  | succ f =>
    unfold floatOfInt.dropBits
    have : ¬ a < 16777216 := by omega
    simp [this]

/-- The conversion at the first numbers it changes: `2^24 + 1` is a tie and goes to the even
significand below, `2^24 + 3` is a tie and goes up, and the largest `int` becomes `2^31`. -/
theorem floatOfInt_samples :
    floatOfInt 127 = 127 ∧ floatOfInt 16777216 = 16777216 ∧ floatOfInt 16777217 = 16777216 ∧
    floatOfInt 16777218 = 16777218 ∧ floatOfInt 16777219 = 16777220 ∧
    floatOfInt (-16777217) = -16777216 ∧ floatOfInt 2147483647 = 2147483648 := by
  decide

/-- Only the pitch `-1` converts to the free sentinel `-1`. -/
theorem floatOfInt_eq_neg_one_iff (n : Int) : floatOfInt n = -1 ↔ n = -1 := by
  constructor
  · intro h
    by_cases hs : n.natAbs ≤ 16777216
    · rwa [floatOfInt_of_le hs] at h
    · exfalso
      have hk := dropBits_pos (by omega : 0 < n.natAbs) (by omega : 16777216 ≤ n.natAbs)
      simp only [floatOfInt, hs, if_false] at h
      generalize floatOfInt.dropBits n.natAbs n.natAbs = k at h hk
      obtain ⟨j, rfl⟩ : ∃ j, k = j + 1 := ⟨k - 1, by omega⟩
      generalize (if 2 ^ (j + 1 - 1) < n.natAbs % 2 ^ (j + 1) ∨
        n.natAbs % 2 ^ (j + 1) = 2 ^ (j + 1 - 1) ∧ n.natAbs / 2 ^ (j + 1) % 2 = 1 then
        n.natAbs / 2 ^ (j + 1) + 1 else n.natAbs / 2 ^ (j + 1)) = q1 at h
      have h2 : (2 : Int) ∣ n.sign * ((q1 * 2 ^ (j + 1) : Nat) : Int) := by
        apply Dvd.dvd.mul_left
        rw [pow_succ, ← mul_assoc]
        push_cast
        exact Dvd.intro_left _ rfl
      rw [h] at h2
      omega
  · intro h
    subst h
    decide

/-! ## Array reads and the scan position -/

theorem DBL_MAX_eq : DBL_MAX = 2 ^ 1024 - 2 ^ 971 := by
  unfold DBL_MAX
  norm_num

theorem readVoice_natCast (vs : List SchedVoiceInfo) (i : Nat) :
    readVoice vs (i : Int) = vs[i]? := by
  simp [readVoice]

theorem readVoice_of_nonneg (vs : List SchedVoiceInfo) {i : Int} (h : 0 ≤ i) :
    readVoice vs i = vs[i.toNat]? := by
  simp [readVoice, h]

theorem readVoice_some_bounds {vs : List SchedVoiceInfo} {i : Int} {v : SchedVoiceInfo}
    (h : readVoice vs i = some v) : 0 ≤ i ∧ i.toNat < vs.length ∧ vs[i.toNat]? = some v := by
  unfold readVoice at h
  split at h
  · rename_i h0
    refine ⟨h0, ?_, h⟩
    rcases List.getElem?_eq_some.mp h with ⟨hlt, _⟩
    exact hlt
  · cases h

/-- With the cursor at least `-1` and a positive limit, C++ `%` in the scan is the
mathematical remainder. -/
theorem check_eq_emod (s : PolyphonyScheduler) (hl : -1 ≤ s.mLastVoice)
    (hv : 0 < s.mVoiceLimit) (i : Nat) :
    Int.tmod ((i : Int) + s.mLastVoice + 1) s.mVoiceLimit
      = (s.mLastVoice + 1 + i) % s.mVoiceLimit := by
  rw [Int.tmod_eq_emod (by omega) (by omega)]
  congr 1
  omega

theorem emod_bounds (a : Int) {b : Int} (hb : 0 < b) : 0 ≤ a % b ∧ a % b < b :=
  ⟨Int.emod_nonneg a (by omega), Int.emod_lt_of_pos a hb⟩

/-! ## The free-slot scan of `Start` -/

theorem findFree_found (s : PolyphonyScheduler) (hl : -1 ≤ s.mLastVoice)
    (hv : 0 < s.mVoiceLimit) (n i k : Nat) (hk1 : i ≤ k) (hk2 : k < i + n)
    (hfree : ∃ v, readVoice s.mVoices ((s.mLastVoice + 1 + k) % s.mVoiceLimit) = some v
      ∧ v.mPitch = -1)
    (hocc : ∀ j : Nat, i ≤ j → j < k →
      ∃ v, readVoice s.mVoices ((s.mLastVoice + 1 + j) % s.mVoiceLimit) = some v
        ∧ v.mPitch ≠ -1) :
    Start.findFree s n i = some ((s.mLastVoice + 1 + k) % s.mVoiceLimit) := by
  induction n generalizing i with
  | zero => omega
  | succ n ih =>
    unfold Start.findFree
    simp only [check_eq_emod s hl hv]
    by_cases hik : i = k
    · subst hik
      obtain ⟨v, hv1, hv2⟩ := hfree
      simp [hv1, hv2]
    · obtain ⟨v, hv1, hv2⟩ := hocc i (le_refl i) (by omega)
      simp only [hv1, hv2, if_false]
      exact ih (i + 1) (by omega) (by omega) (fun j hj1 hj2 => hocc j (by omega) hj2)

theorem findFree_full (s : PolyphonyScheduler) (hl : -1 ≤ s.mLastVoice) (n i : Nat)
    (hocc : ∀ j : Nat, i ≤ j → j < i + n →
      ∃ v, readVoice s.mVoices ((s.mLastVoice + 1 + j) % s.mVoiceLimit) = some v
        ∧ v.mPitch ≠ -1)
    (hv : 0 < s.mVoiceLimit) :
    Start.findFree s n i = some (-1) := by
  induction n generalizing i with
  | zero => rfl
  | succ n ih =>
    unfold Start.findFree
    simp only [check_eq_emod s hl hv]
    obtain ⟨v, hv1, hv2⟩ := hocc i (le_refl i) (by omega)
    simp only [hv1, hv2, if_false]
    exact ih (i + 1) (fun j hj1 hj2 => hocc j (by omega) (by omega))

theorem findFree_of_allOccupied (s : PolyphonyScheduler) (hl : -1 ≤ s.mLastVoice)
    (hocc : AllOccupied s) : Start.findFree s s.mVoiceLimit.toNat 0 = some (-1) := by
  by_cases hv : 0 < s.mVoiceLimit
  · apply findFree_full s hl _ _ _ hv
    intro j _ _
    obtain ⟨h0, h1⟩ := emod_bounds (s.mLastVoice + 1 + j) hv
    obtain ⟨v, hv1, hv2⟩ := hocc ((s.mLastVoice + 1 + j) % s.mVoiceLimit).toNat (by omega)
    exact ⟨v, by rw [readVoice_of_nonneg _ h0]; exact hv1, hv2⟩
  · have : s.mVoiceLimit.toNat = 0 := by omega
    rw [this]
    rfl

/-! ## `Start` without an explicit slot -/

theorem Start_auto (s : PolyphonyScheduler) (time pitch amount : Int)
    (m : ModulationParameters) :
    Start s time pitch amount (-1) m =
      match Start.findFree s s.mVoiceLimit.toNat 0 with
      | none => none
      | some voiceIdx =>
        if voiceIdx = -1 then
          if s.mAllowStealing then
            match readVoice s.mVoices 0 with
            | none => none
            | some v0 =>
              match Start.findOldest s (s.mVoiceLimit - 1).toNat 1 v0.mTime 0 with
              | none => none
              | some oldestIndex => Start.assign s oldestIndex time pitch amount m
          else some (s, [])
        else Start.assign s voiceIdx time pitch amount m := by
  have h : (-1 : Int) < (s.kNumVoices : Int) := by omega
  simp [Start, h]

theorem assign_of_lt (s : PolyphonyScheduler) (c : Nat) (hc : c < s.mVoices.length)
    (time pitch amount : Int) (m : ModulationParameters) :
    Start.assign s (c : Int) time pitch amount m =
      some ({ s with mLastVoice := (c : Int),
                     mVoices := s.mVoices.set c ⟨floatOfInt pitch, time, true⟩ },
        [ReceiverCall.StartVoice c time pitch amount m]) := by
  unfold Start.assign
  rw [readVoice_natCast, List.getElem?_eq_getElem hc]
  simp

/-- Every index below a positive limit is a scan position `(mLastVoice + 1 + k) % mVoiceLimit`
for some `k` below the limit. -/
theorem exists_scan_offset (s : PolyphonyScheduler) (hv : 0 < s.mVoiceLimit) (f : Nat)
    (hf : (f : Int) < s.mVoiceLimit) :
    ∃ k : Nat, (k : Int) < s.mVoiceLimit ∧ (s.mLastVoice + 1 + k) % s.mVoiceLimit = f := by
  obtain ⟨h0, h1⟩ := emod_bounds ((f : Int) - (s.mLastVoice + 1)) hv
  refine ⟨(((f : Int) - (s.mLastVoice + 1)) % s.mVoiceLimit).toNat, by omega, ?_⟩
  rw [Int.toNat_of_nonneg h0, Int.add_emod_emod]
  have : s.mLastVoice + 1 + ((f : Int) - (s.mLastVoice + 1)) = f := by omega
  rw [this]
  exact Int.emod_eq_of_lt (by omega) hf

/-! ## Start: free slot, dropped event -/

/-- The free-slot branch of `Start`: the result state and callback in closed form. -/
theorem start_free (s : PolyphonyScheduler) (time pitch amount : Int)
    (m : ModulationParameters) (hl : -1 ≤ s.mLastVoice)
    (h1 : 1 ≤ s.mVoiceLimit) (h2 : s.mVoiceLimit ≤ s.kNumVoices)
    (hfree : ∃ i : Nat, (i : Int) < s.mVoiceLimit ∧ ∃ v, s.mVoices[i]? = some v ∧ v.mPitch = -1) :
    ∃ k c : Nat,
      (k : Int) < s.mVoiceLimit ∧ (c : Int) = (s.mLastVoice + 1 + k) % s.mVoiceLimit ∧
      c < s.mVoices.length ∧
      (∃ v, s.mVoices[c]? = some v ∧ v.mPitch = -1) ∧
      (∀ j : Nat, j < k → ∃ v,
        s.mVoices[((s.mLastVoice + 1 + j) % s.mVoiceLimit).toNat]? = some v ∧ v.mPitch ≠ -1) ∧
      Start s time pitch amount (-1) m
        = some ({ s with mLastVoice := (c : Int),
                         mVoices := s.mVoices.set c ⟨floatOfInt pitch, time, true⟩ },
            [ReceiverCall.StartVoice c time pitch amount m]) := by
  classical
  have hv : 0 < s.mVoiceLimit := by omega
  have hlen : s.mVoiceLimit ≤ (s.mVoices.length : Int) := h2
  -- some scan offset reaches a free slot
  have hex : ∃ k : Nat, (k : Int) < s.mVoiceLimit ∧
      ∃ v, s.mVoices[((s.mLastVoice + 1 + k) % s.mVoiceLimit).toNat]? = some v
        ∧ v.mPitch = -1 := by
    obtain ⟨f, hf, v, hv1, hv2⟩ := hfree
    obtain ⟨k, hk, hkf⟩ := exists_scan_offset s hv f hf
    exact ⟨k, hk, v, by rw [hkf]; simpa using hv1, hv2⟩
  let k := Nat.find hex
  obtain ⟨hk, v, hkv, hkp⟩ := Nat.find_spec hex
  have hmin : ∀ j : Nat, j < k → ∃ w,
      s.mVoices[((s.mLastVoice + 1 + j) % s.mVoiceLimit).toNat]? = some w ∧ w.mPitch ≠ -1 := by
    intro j hj
    obtain ⟨h0, h1⟩ := emod_bounds (s.mLastVoice + 1 + j) hv
    have hlt : ((s.mLastVoice + 1 + j) % s.mVoiceLimit).toNat < s.mVoices.length := by omega
    refine ⟨s.mVoices[((s.mLastVoice + 1 + j) % s.mVoiceLimit).toNat], ?_, ?_⟩
    · exact List.getElem?_eq_getElem hlt
    · intro hp
      have hjk : (j : Int) < s.mVoiceLimit := by
        have : j < k := hj
        omega
      exact Nat.find_min hex hj ⟨hjk, _, List.getElem?_eq_getElem hlt, hp⟩
  obtain ⟨h0, h1⟩ := emod_bounds (s.mLastVoice + 1 + k) hv
  have hc : ((s.mLastVoice + 1 + k) % s.mVoiceLimit).toNat < s.mVoices.length := by omega
  have hcast : ((((s.mLastVoice + 1 + k) % s.mVoiceLimit).toNat : Nat) : Int)
      = (s.mLastVoice + 1 + k) % s.mVoiceLimit := Int.toNat_of_nonneg h0
  have hfind : Start.findFree s s.mVoiceLimit.toNat 0
      = some ((s.mLastVoice + 1 + k) % s.mVoiceLimit) := by
    apply findFree_found s hl hv _ 0 k (Nat.zero_le _) (by omega)
    · exact ⟨v, by rw [readVoice_of_nonneg _ h0]; exact hkv, hkp⟩
    · intro j _ hj
      obtain ⟨w, hw1, hw2⟩ := hmin j hj
      exact ⟨w, by rw [readVoice_of_nonneg _ (emod_bounds _ hv).1]; exact hw1, hw2⟩
  refine ⟨k, ((s.mLastVoice + 1 + k) % s.mVoiceLimit).toNat, hk, hcast, hc, ⟨v, hkv, hkp⟩,
    hmin, ?_⟩
  rw [Start_auto, hfind]
  have hne : ¬ (s.mLastVoice + 1 + k) % s.mVoiceLimit = -1 := by omega
  simp only [hne, if_false]
  rw [← hcast]
  exact assign_of_lt s _ hc time pitch amount m

/-- C1 (amended): in a state with `1 ≤ mVoiceLimit ≤ kNumVoices` where one of the first
`mVoiceLimit` slots is free, `Start` with `voiceIdx = -1` chooses slot
`c = (mLastVoice + 1 + k) % mVoiceLimit` for the smallest `k < mVoiceLimit` whose slot is free;
the slot becomes `{(float)pitch, time, true}`, which is `{pitch, time, true}` whenever
`|pitch| ≤ 2^24`; every other slot is unchanged, and the one callback is
`StartVoice(c, time, pitch, amount, modulation)`. -/
theorem C1_start_picks_first_free_slot (s : PolyphonyScheduler) (time pitch amount : Int)
    (m : ModulationParameters) (hwf : WellFormed s)
    (h1 : 1 ≤ s.mVoiceLimit) (h2 : s.mVoiceLimit ≤ s.kNumVoices)
    (hfree : ∃ i : Nat, (i : Int) < s.mVoiceLimit ∧ ∃ v, s.mVoices[i]? = some v ∧ v.mPitch = -1) :
    ∃ k c : Nat, ∃ s1 : PolyphonyScheduler,
      (k : Int) < s.mVoiceLimit ∧ (c : Int) = (s.mLastVoice + 1 + k) % s.mVoiceLimit ∧
      (∃ v, s.mVoices[c]? = some v ∧ v.mPitch = -1) ∧
      (∀ j : Nat, j < k → ∃ v,
        s.mVoices[((s.mLastVoice + 1 + j) % s.mVoiceLimit).toNat]? = some v ∧ v.mPitch ≠ -1) ∧
      Start s time pitch amount (-1) m
        = some (s1, [ReceiverCall.StartVoice c time pitch amount m]) ∧
      s1.mVoices[c]? = some ⟨floatOfInt pitch, time, true⟩ ∧
      (pitch.natAbs ≤ 16777216 → s1.mVoices[c]? = some ⟨pitch, time, true⟩) ∧
      (∀ j : Nat, j ≠ c → s1.mVoices[j]? = s.mVoices[j]?) ∧
      s1.mVoices.length = s.mVoices.length := by
  obtain ⟨k, c, hk, hc, hcl, hfr, hmin, hst⟩ :=
    start_free s time pitch amount m hwf.1 h1 h2 hfree
  refine ⟨k, c, _, hk, hc, hfr, hmin, hst, ?_, ?_, ?_, ?_⟩
  · simp [List.getElem?_set_self hcl]
  · intro hsmall
    simp [List.getElem?_set_self hcl, floatOfInt_of_le hsmall]
  · intro j hj
    simp [List.getElem?_set_ne (Ne.symm hj)]
  · simp

/-- C1 as stated fails: `Start` of pitch `2^24 + 1` on the one free slot of the constructed
scheduler leaves the slot holding `2^24`, the nearest `float`, not the pitch. -/
theorem C1_counterexample :
    (WellFormed (init 1) ∧ 1 ≤ (init 1).mVoiceLimit
      ∧ (init 1).mVoiceLimit ≤ (init 1).kNumVoices
      ∧ (init 1).mVoices[0]? = some ⟨-1, 0, false⟩) ∧
    Start (init 1) 1 16777217 100 (-1) 0
      = some (⟨[⟨16777216, 1, true⟩], true, 0, 1⟩,
          [ReceiverCall.StartVoice 0 1 16777217 100 0]) ∧
    (⟨16777216, 1, true⟩ : SchedVoiceInfo) ≠ ⟨16777217, 1, true⟩ := by
  refine ⟨⟨by decide, by decide, by decide, by decide⟩, by decide, by decide⟩

/-- The free-slot statement at `exFreeSlot`: the scan starts at slot 1, which is free. -/
theorem C1_start_picks_first_free_slot_witness :
    (WellFormed exFreeSlot ∧ 1 ≤ exFreeSlot.mVoiceLimit
      ∧ exFreeSlot.mVoiceLimit ≤ exFreeSlot.kNumVoices) ∧
    ∃ k c : Nat, ∃ s1 : PolyphonyScheduler,
      (k : Int) < exFreeSlot.mVoiceLimit
      ∧ (c : Int) = (exFreeSlot.mLastVoice + 1 + k) % exFreeSlot.mVoiceLimit ∧
      (∃ v, exFreeSlot.mVoices[c]? = some v ∧ v.mPitch = -1) ∧
      (∀ j : Nat, j < k → ∃ v,
        exFreeSlot.mVoices[((exFreeSlot.mLastVoice + 1 + j) % exFreeSlot.mVoiceLimit).toNat]?
          = some v ∧ v.mPitch ≠ -1) ∧
      Start exFreeSlot 3 64 100 (-1) 7
        = some (s1, [ReceiverCall.StartVoice c 3 64 100 7]) ∧
      s1.mVoices[c]? = some ⟨floatOfInt 64, 3, true⟩ ∧
      ((64 : Int).natAbs ≤ 16777216 → s1.mVoices[c]? = some ⟨64, 3, true⟩) ∧
      (∀ j : Nat, j ≠ c → s1.mVoices[j]? = exFreeSlot.mVoices[j]?) ∧
      s1.mVoices.length = exFreeSlot.mVoices.length :=
  ⟨⟨by decide, by decide, by decide⟩,
    C1_start_picks_first_free_slot exFreeSlot 3 64 100 7 (by decide) (by decide) (by decide)
      ⟨1, by decide, ⟨-1, 0, false⟩, rfl, rfl⟩⟩

/-- C3: when every one of the first `mVoiceLimit` slots is occupied and stealing is disabled,
`Start` with `voiceIdx = -1` makes no callback and returns the scheduler unchanged. -/
theorem C3_start_dropped_without_stealing (s : PolyphonyScheduler) (time pitch amount : Int)
    (m : ModulationParameters) (hwf : WellFormed s) (hocc : AllOccupied s)
    (hsteal : s.mAllowStealing = false) :
    Start s time pitch amount (-1) m = some (s, []) := by
  rw [Start_auto, findFree_of_allOccupied s hwf.1 hocc]
  simp [hsteal]

theorem allOccupied_exFullNoSteal : AllOccupied exFullNoSteal := by
  intro i hi
  have hi2 : i < 2 := by
    have : (i : Int) < 2 := hi
    omega
  interval_cases i
  · exact ⟨_, rfl, by decide⟩
  · exact ⟨_, rfl, by decide⟩

/-- The dropped-event statement at `exFullNoSteal`. -/
theorem C3_start_dropped_without_stealing_witness :
    (WellFormed exFullNoSteal ∧ AllOccupied exFullNoSteal
      ∧ exFullNoSteal.mAllowStealing = false) ∧
    Start exFullNoSteal 3 64 100 (-1) 0 = some (exFullNoSteal, []) :=
  ⟨⟨by decide, allOccupied_exFullNoSteal, rfl⟩,
    C3_start_dropped_without_stealing exFullNoSteal 3 64 100 0 (by decide)
      allOccupied_exFullNoSteal rfl⟩

/-! ## Start: stealing the oldest voice -/

theorem findOldest_spec (s : PolyphonyScheduler) (n i : Nat) (oldest : Int) (oi : Nat)
    (hlen : i + n ≤ s.mVoices.length) (hoi : oi < i)
    (hot : ∃ v, s.mVoices[oi]? = some v ∧ v.mTime = oldest)
    (hmin : ∀ j : Nat, j < i → ∀ v, s.mVoices[j]? = some v → oldest ≤ v.mTime)
    (hfirst : ∀ j : Nat, j < oi → ∀ v, s.mVoices[j]? = some v → oldest < v.mTime) :
    ∃ r vr, Start.findOldest s n i oldest oi = some r ∧ r < i + n ∧ s.mVoices[r]? = some vr ∧
      (∀ j : Nat, j < i + n → ∀ v, s.mVoices[j]? = some v → vr.mTime ≤ v.mTime) ∧
      (∀ j : Nat, j < r → ∀ v, s.mVoices[j]? = some v → vr.mTime < v.mTime) := by
  induction n generalizing i oldest oi with
  | zero =>
    obtain ⟨v, hv1, hv2⟩ := hot
    refine ⟨oi, v, rfl, by omega, hv1, ?_, ?_⟩
    · intro j hj w hw
      rw [hv2]
      exact hmin j (by omega) w hw
    · intro j hj w hw
      rw [hv2]
      exact hfirst j hj w hw
  | succ n ih =>
    have hi : i < s.mVoices.length := by omega
    unfold Start.findOldest
    rw [readVoice_natCast, List.getElem?_eq_getElem hi]
    simp only
    have hvi : s.mVoices[i]? = some s.mVoices[i] := List.getElem?_eq_getElem hi
    by_cases hlt : s.mVoices[i].mTime < oldest
    · simp only [hlt, if_true]
      obtain ⟨r, vr, h1, h2, h3, h4, h5⟩ := ih (i + 1) s.mVoices[i].mTime i (by omega)
        (by omega) ⟨_, hvi, rfl⟩
        (by
          intro j hj w hw
          by_cases hji : j = i
          · subst hji
            rw [hvi] at hw
            cases hw
            exact le_refl _
          · exact le_trans (le_of_lt hlt) (hmin j (by omega) w hw))
        (by
          intro j hj w hw
          exact lt_of_lt_of_le hlt (hmin j hj w hw))
      exact ⟨r, vr, h1, by omega, h3, fun j hj => h4 j (by omega), h5⟩
    · simp only [hlt, if_false]
      obtain ⟨r, vr, h1, h2, h3, h4, h5⟩ := ih (i + 1) oldest oi (by omega)
        (by omega) hot
        (by
          intro j hj w hw
          by_cases hji : j = i
          · subst hji
            rw [hvi] at hw
            cases hw
            exact not_lt.mp hlt
          · exact hmin j (by omega) w hw)
        hfirst
      exact ⟨r, vr, h1, by omega, h3, fun j hj => h4 j (by omega), h5⟩

/-- The stealing branch of `Start`: the result state and callback in closed form. -/
theorem start_steal (s : PolyphonyScheduler) (time pitch amount : Int)
    (m : ModulationParameters) (hl : -1 ≤ s.mLastVoice)
    (h1 : 1 ≤ s.mVoiceLimit) (h2 : s.mVoiceLimit ≤ s.kNumVoices) (hocc : AllOccupied s)
    (hsteal : s.mAllowStealing = true) :
    ∃ (r : Nat) (vr : SchedVoiceInfo),
      Start s time pitch amount (-1) m
        = some ({ s with mLastVoice := (r : Int),
                         mVoices := s.mVoices.set r ⟨floatOfInt pitch, time, true⟩ },
            [ReceiverCall.StartVoice r time pitch amount m]) ∧
      (r : Int) < s.mVoiceLimit ∧ s.mVoices[r]? = some vr ∧
      (∀ j : Nat, (j : Int) < s.mVoiceLimit → ∀ v, s.mVoices[j]? = some v → vr.mTime ≤ v.mTime) ∧
      (∀ j : Nat, j < r → ∀ v, s.mVoices[j]? = some v → vr.mTime < v.mTime) := by
  have hlen : s.mVoiceLimit ≤ (s.mVoices.length : Int) := h2
  have h0 : 0 < s.mVoices.length := by omega
  have hv0 : s.mVoices[0]? = some s.mVoices[0] := List.getElem?_eq_getElem h0
  obtain ⟨r, vr, hr1, hr2, hr3, hr4, hr5⟩ :=
    findOldest_spec s (s.mVoiceLimit - 1).toNat 1 s.mVoices[0].mTime 0 (by omega) (by omega)
      ⟨_, hv0, rfl⟩
      (by
        intro j hj w hw
        have : j = 0 := by omega
        subst this
        rw [hv0] at hw
        cases hw
        exact le_refl _)
      (by intro j hj; omega)
  have hrl : r < s.mVoices.length := by omega
  refine ⟨r, vr, ?_, by omega, hr3, fun j hj => hr4 j (by omega), hr5⟩
  rw [Start_auto, findFree_of_allOccupied s hl hocc, ← assign_of_lt s r hrl time pitch amount m]
  have hread : readVoice s.mVoices 0 = some s.mVoices[0] := by
    have := readVoice_natCast s.mVoices 0
    simpa [hv0] using this
  simp only [if_true, hsteal, hread, hr1]

/-- C2: when the first `mVoiceLimit` slots are all occupied and stealing is enabled, `Start`
with `voiceIdx = -1` gives the note to the slot of least `mTime` among the first `mVoiceLimit`
slots, the lowest index among ties, for every cursor value. (The slot then holds the pitch as
converted to the `float` field, which is the pitch itself up to magnitude `2^24`.) -/
theorem C2_start_steals_oldest (s : PolyphonyScheduler) (time pitch amount : Int)
    (m : ModulationParameters) (hwf : WellFormed s)
    (h1 : 1 ≤ s.mVoiceLimit) (h2 : s.mVoiceLimit ≤ s.kNumVoices) (hocc : AllOccupied s)
    (hsteal : s.mAllowStealing = true) :
    ∃ (r : Nat) (vr : SchedVoiceInfo) (s1 : PolyphonyScheduler),
      Start s time pitch amount (-1) m
        = some (s1, [ReceiverCall.StartVoice r time pitch amount m]) ∧
      s1.mVoices[r]? = some ⟨floatOfInt pitch, time, true⟩ ∧
      (pitch.natAbs ≤ 16777216 → s1.mVoices[r]? = some ⟨pitch, time, true⟩) ∧
      (r : Int) < s.mVoiceLimit ∧ s.mVoices[r]? = some vr ∧
      (∀ j : Nat, (j : Int) < s.mVoiceLimit → ∀ v, s.mVoices[j]? = some v → vr.mTime ≤ v.mTime) ∧
      (∀ j : Nat, j < r → ∀ v, s.mVoices[j]? = some v → vr.mTime < v.mTime) := by
  obtain ⟨r, vr, hr1, hr2, hr3, hr4, hr5⟩ :=
    start_steal s time pitch amount m hwf.1 h1 h2 hocc hsteal
  have hrl : r < s.mVoices.length := (List.getElem?_eq_some.mp hr3).1
  exact ⟨r, vr, _, hr1, by simp [List.getElem?_set_self hrl],
    fun hsmall => by simp [List.getElem?_set_self hrl, floatOfInt_of_le hsmall],
    hr2, hr3, hr4, hr5⟩

theorem allOccupied_exFullSteal : AllOccupied exFullSteal := by
  intro i hi
  have hi2 : i < 4 := by
    have : (i : Int) < 4 := hi
    omega
  interval_cases i
  · exact ⟨_, rfl, by decide⟩
  · exact ⟨_, rfl, by decide⟩
  · exact ⟨_, rfl, by decide⟩
  · exact ⟨_, rfl, by decide⟩

/-- The stealing statement at `exFullSteal`, where slots 1 and 2 tie for the oldest time. -/
theorem C2_start_steals_oldest_witness :
    (WellFormed exFullSteal ∧ 1 ≤ exFullSteal.mVoiceLimit
      ∧ exFullSteal.mVoiceLimit ≤ exFullSteal.kNumVoices ∧ AllOccupied exFullSteal
      ∧ exFullSteal.mAllowStealing = true) ∧
    ∃ (r : Nat) (vr : SchedVoiceInfo) (s1 : PolyphonyScheduler),
      Start exFullSteal 9 67 100 (-1) 0
        = some (s1, [ReceiverCall.StartVoice r 9 67 100 0]) ∧
      s1.mVoices[r]? = some ⟨floatOfInt 67, 9, true⟩ ∧
      ((67 : Int).natAbs ≤ 16777216 → s1.mVoices[r]? = some ⟨67, 9, true⟩) ∧
      (r : Int) < exFullSteal.mVoiceLimit ∧ exFullSteal.mVoices[r]? = some vr ∧
      (∀ j : Nat, (j : Int) < exFullSteal.mVoiceLimit →
        ∀ v, exFullSteal.mVoices[j]? = some v → vr.mTime ≤ v.mTime) ∧
      (∀ j : Nat, j < r → ∀ v, exFullSteal.mVoices[j]? = some v → vr.mTime < v.mTime) :=
  ⟨⟨by decide, by decide, by decide, allOccupied_exFullSteal, rfl⟩,
    C2_start_steals_oldest exFullSteal 9 67 100 0 (by decide) (by decide) (by decide)
      allOccupied_exFullSteal rfl⟩

/-! ## Start: explicit slot, and the shape of every outcome -/

theorem assign_inv {s s1 : PolyphonyScheduler} {idx time pitch amount : Int}
    {m : ModulationParameters} {calls : List ReceiverCall}
    (h : Start.assign s idx time pitch amount m = some (s1, calls)) :
    ∃ c : Nat, idx = (c : Int) ∧ c < s.mVoices.length ∧
      s1 = { s with mLastVoice := (c : Int),
                    mVoices := s.mVoices.set c ⟨floatOfInt pitch, time, true⟩ } ∧
      calls = [ReceiverCall.StartVoice c time pitch amount m] := by
  unfold Start.assign at h
  split at h
  · cases h
  · rename_i v hv
    obtain ⟨h0, h1, _⟩ := readVoice_some_bounds hv
    have hidx : idx = ((idx.toNat : Nat) : Int) := (Int.toNat_of_nonneg h0).symm
    simp only [Option.some.injEq, Prod.mk.injEq] at h
    refine ⟨idx.toNat, hidx, h1, ?_, h.2.symm⟩
    rw [← h.1, ← hidx]

/-- Every outcome of `Start`: either the event is dropped (only without an explicit slot and
with stealing disabled), or one slot is filled, the cursor moves to it and `StartVoice` is
called once for it. -/
theorem Start_inv {s s1 : PolyphonyScheduler} {time pitch amount voiceIdx : Int}
    {m : ModulationParameters} {calls : List ReceiverCall}
    (h : Start s time pitch amount voiceIdx m = some (s1, calls)) :
    (s1 = s ∧ calls = [] ∧ voiceIdx = -1 ∧ s.mAllowStealing = false) ∨
    ∃ c : Nat, c < s.mVoices.length ∧ (voiceIdx ≠ -1 → voiceIdx = (c : Int)) ∧
      s1 = { s with mLastVoice := (c : Int),
                    mVoices := s.mVoices.set c ⟨floatOfInt pitch, time, true⟩ } ∧
      calls = [ReceiverCall.StartVoice c time pitch amount m] := by
  unfold Start at h
  split at h
  · cases h
  split at h
  · cases h
  split at h
  · cases h
  rename_i r hr
  split at h
  · rename_i hneg
    subst hneg
    have hvi : voiceIdx = -1 := by
      by_contra hne
      simp only [hne, if_false, Option.some.injEq] at hr
    split at h
    · split at h
      · cases h
      split at h
      · cases h
      obtain ⟨c, _, hc, hs1, hcalls⟩ := assign_inv h
      exact Or.inr ⟨c, hc, fun hne => absurd hvi hne, hs1, hcalls⟩
    · rename_i hst
      simp only [Option.some.injEq, Prod.mk.injEq] at h
      exact Or.inl ⟨h.1.symm, h.2.symm, hvi, by simpa using hst⟩
  · obtain ⟨c, hrc, hc, hs1, hcalls⟩ := assign_inv h
    refine Or.inr ⟨c, hc, ?_, hs1, hcalls⟩
    intro hne
    simp only [hne, if_false, Option.some.injEq] at hr
    rw [hr, hrc]

/-- `Start` with an explicit slot inside the array. -/
theorem start_explicit (s : PolyphonyScheduler) (time pitch amount : Int)
    (m : ModulationParameters) (sl : Nat) (hs : sl < s.kNumVoices) :
    Start s time pitch amount (sl : Int) m
      = some ({ s with mLastVoice := (sl : Int),
                       mVoices := s.mVoices.set sl ⟨floatOfInt pitch, time, true⟩ },
          [ReceiverCall.StartVoice sl time pitch amount m]) := by
  have hlen : sl < s.mVoices.length := hs
  have h1 : ((sl : Int) < (s.kNumVoices : Int)) := by omega
  have h2 : ¬ ((sl : Int) = -1) := by omega
  have h3 : readVoice s.mVoices (sl : Int) = some s.mVoices[sl] := by
    rw [readVoice_natCast, List.getElem?_eq_getElem hlen]
  unfold Start
  simp only [h1, h2, h3, not_true_eq_false, if_false, ne_eq, not_false_eq_true, true_and]
  simpa using assign_of_lt s sl hlen time pitch amount m

/-- C4 (amended): `Start` with an explicit slot `sl < kNumVoices` uses that slot, free or
occupied: the slot becomes `{(float)pitch, time, true}`, which is `{pitch, time, true}` whenever
`|pitch| ≤ 2^24`, `mLastVoice = sl`, the other slots are unchanged and
`StartVoice(sl, time, pitch, amount, modulation)` is the one callback. For every `Start` that
makes a callback (explicit, free or stolen slot), `mLastVoice` afterwards is the slot passed to
`StartVoice`. -/
theorem C4_start_explicit_slot (s : PolyphonyScheduler) (time pitch amount : Int)
    (m : ModulationParameters) (sl : Nat) (hs : sl < s.kNumVoices) :
    (∃ s1 : PolyphonyScheduler,
      Start s time pitch amount (sl : Int) m
        = some (s1, [ReceiverCall.StartVoice sl time pitch amount m]) ∧
      s1.mVoices[sl]? = some ⟨floatOfInt pitch, time, true⟩ ∧
      (pitch.natAbs ≤ 16777216 → s1.mVoices[sl]? = some ⟨pitch, time, true⟩) ∧
      s1.mLastVoice = (sl : Int) ∧
      (∀ j : Nat, j ≠ sl → s1.mVoices[j]? = s.mVoices[j]?) ∧
      s1.mVoices.length = s.mVoices.length) ∧
    (∀ (voiceIdx : Int) (s1 : PolyphonyScheduler) (calls : List ReceiverCall),
      Start s time pitch amount voiceIdx m = some (s1, calls) → calls ≠ [] →
      ∃ c : Nat, calls = [ReceiverCall.StartVoice c time pitch amount m] ∧
        s1.mLastVoice = (c : Int) ∧ s1.mVoices[c]? = some ⟨floatOfInt pitch, time, true⟩) := by
  have hlen : sl < s.mVoices.length := hs
  constructor
  · refine ⟨_, start_explicit s time pitch amount m sl hs, ?_, ?_, rfl, ?_, ?_⟩
    · simp [List.getElem?_set_self hlen]
    · intro hsmall
      simp [List.getElem?_set_self hlen, floatOfInt_of_le hsmall]
    · intro j hj
      simp [List.getElem?_set_ne (Ne.symm hj)]
    · simp
  · intro voiceIdx s1 calls h hne
    rcases Start_inv h with ⟨_, hc, _, _⟩ | ⟨c, hc, _, hs1, hcalls⟩
    · exact absurd hc hne
    · refine ⟨c, hcalls, by rw [hs1], ?_⟩
      rw [hs1]
      simp [List.getElem?_set_self hc]

/-- C4 as stated fails: `Start` of pitch `2^24 + 1` on the explicit slot 0 leaves the slot
holding `2^24`, the nearest `float`, not the pitch. -/
theorem C4_counterexample :
    (0 : Nat) < (init 1).kNumVoices ∧
    Start (init 1) 1 16777217 100 ((0 : Nat) : Int) 0
      = some (⟨[⟨16777216, 1, true⟩], true, 0, 1⟩,
          [ReceiverCall.StartVoice 0 1 16777217 100 0]) ∧
    (⟨16777216, 1, true⟩ : SchedVoiceInfo) ≠ ⟨16777217, 1, true⟩ := by
  refine ⟨by decide, by decide, by decide⟩

/-- The explicit-slot statement at `exFullSteal`, slot 2, which is occupied. -/
theorem C4_start_explicit_slot_witness :
    (2 < exFullSteal.kNumVoices) ∧
    ((∃ s1 : PolyphonyScheduler,
      Start exFullSteal 9 67 100 ((2 : Nat) : Int) 0
        = some (s1, [ReceiverCall.StartVoice 2 9 67 100 0]) ∧
      s1.mVoices[2]? = some ⟨floatOfInt 67, 9, true⟩ ∧
      ((67 : Int).natAbs ≤ 16777216 → s1.mVoices[2]? = some ⟨67, 9, true⟩) ∧
      s1.mLastVoice = ((2 : Nat) : Int) ∧
      (∀ j : Nat, j ≠ 2 → s1.mVoices[j]? = exFullSteal.mVoices[j]?) ∧
      s1.mVoices.length = exFullSteal.mVoices.length) ∧
    (∀ (voiceIdx : Int) (s1 : PolyphonyScheduler) (calls : List ReceiverCall),
      Start exFullSteal 9 67 100 voiceIdx 0 = some (s1, calls) → calls ≠ [] →
      ∃ c : Nat, calls = [ReceiverCall.StartVoice c 9 67 100 0] ∧
        s1.mLastVoice = (c : Int) ∧ s1.mVoices[c]? = some ⟨floatOfInt 67, 9, true⟩)) :=
  ⟨by decide, C4_start_explicit_slot exFullSteal 9 67 100 0 2 (by decide)⟩

/-! ## Stop -/

theorem clearVoice_of_lt (vs : List SchedVoiceInfo) (i : Nat) (v : SchedVoiceInfo)
    (hi : i < vs.length) :
    clearVoice vs i v = some (vs.set i ⟨-1, v.mTime, false⟩, ReceiverCall.StopVoice i (-1) v.mTime) := by
  unfold clearVoice
  simp only [readVoice_natCast]
  rw [List.getElem?_set_self hi]

theorem stop_findOldest_spec (s : PolyphonyScheduler) (pitch : Int) (n i : Nat) (oldest vi : Int)
    (hlen : i + n ≤ s.mVoices.length) (hinv : StopScan s (floatOfInt pitch) i oldest vi) :
    ∃ res oldest1, Stop.findOldest s pitch n i oldest vi = some res
      ∧ StopScan s (floatOfInt pitch) (i + n) oldest1 res := by
  induction n generalizing i oldest vi with
  | zero => exact ⟨vi, oldest, rfl, hinv⟩
  | succ n ih =>
    have hi : i < s.mVoices.length := by omega
    have hvi : s.mVoices[i]? = some s.mVoices[i] := List.getElem?_eq_getElem hi
    unfold Stop.findOldest
    rw [readVoice_natCast, hvi]
    simp only
    have hstep : i + 1 + n = i + (n + 1) := by omega
    by_cases hm : s.mVoices[i].mPitch = floatOfInt pitch ∧ s.mVoices[i].mNoteOn = true
        ∧ s.mVoices[i].mTime < oldest
    · rw [if_pos hm]
      obtain ⟨hm1, hm2, hm3⟩ := hm
      have hold : oldest ≤ DBL_MAX := by
        rcases hinv with ⟨_, ho, _⟩ | ⟨r, _, _, vr, _, _, _, _, ho, _⟩
        · omega
        · omega
      have hprev : ∀ j : Nat, j < i → ∀ v, s.mVoices[j]? = some v → v.mPitch = floatOfInt pitch →
          v.mNoteOn = true → oldest ≤ v.mTime := by
        rcases hinv with ⟨_, ho, h⟩ | ⟨r, _, _, vr, _, _, _, _, _, h, _⟩
        · intro j hj v hv hp hn
          rw [ho]
          exact h j hj v hv hp hn
        · exact h
      obtain ⟨res, o1, h1, h2⟩ := ih (i + 1) s.mVoices[i].mTime (i : Int) (by omega)
        (Or.inr ⟨i, rfl, by omega, s.mVoices[i], hvi, hm1, hm2, rfl, by omega,
          (by
            intro j hj v hv hp hn
            by_cases hji : j = i
            · subst hji
              rw [hvi] at hv
              cases hv
              exact le_refl _
            · exact le_trans (le_of_lt hm3) (hprev j (by omega) v hv hp hn)),
          (by
            intro j hj v hv hp hn
            exact lt_of_lt_of_le hm3 (hprev j hj v hv hp hn))⟩)
      exact ⟨res, o1, h1, by rw [← hstep]; exact h2⟩
    · rw [if_neg hm]
      obtain ⟨res, o1, h1, h2⟩ := ih (i + 1) oldest vi (by omega)
        (by
          rcases hinv with ⟨h1, h2, h3⟩ | ⟨r, h1, h2, vr, h3, h4, h5, h6, h7, h8, h9⟩
          · refine Or.inl ⟨h1, h2, ?_⟩
            intro j hj v hv hp hn
            by_cases hji : j = i
            · subst hji
              rw [hvi] at hv
              cases hv
              rw [← h2]
              exact not_lt.mp (fun hlt => hm ⟨hp, hn, hlt⟩)
            · exact h3 j (by omega) v hv hp hn
          · refine Or.inr ⟨r, h1, by omega, vr, h3, h4, h5, h6, h7, ?_, h9⟩
            intro j hj v hv hp hn
            by_cases hji : j = i
            · subst hji
              rw [hvi] at hv
              cases hv
              exact not_lt.mp (fun hlt => hm ⟨hp, hn, hlt⟩)
            · exact h8 j (by omega) v hv hp hn)
      exact ⟨res, o1, h1, by rw [← hstep]; exact h2⟩

/-- What `Stop` does once a slot index has been settled (lines 104-111). -/
theorem Stop_inv {s s1 : PolyphonyScheduler} {time pitch voiceIdx : Int}
    {calls : List ReceiverCall} (h : Stop s time pitch voiceIdx = some (s1, calls)) :
    (s1 = s ∧ calls = []) ∨
    ∃ (r : Nat) (vr : SchedVoiceInfo), r < s.mVoices.length ∧ s.mVoices[r]? = some vr ∧
      vr.mPitch = floatOfInt pitch ∧ vr.mNoteOn = true ∧ (voiceIdx ≠ -1 → voiceIdx = (r : Int)) ∧
      s1 = { s with mVoices := s.mVoices.set r ⟨-1, vr.mTime, false⟩ } ∧
      calls = [ReceiverCall.StopVoice r (-1) vr.mTime] := by
  unfold Stop at h
  split at h
  · cases h
  rename_i idx hidx
  split at h
  · split at h
    · cases h
    rename_i v hv
    obtain ⟨h0, h1, h2⟩ := readVoice_some_bounds hv
    split at h
    · rename_i hm
      rw [clearVoice_of_lt _ _ _ h1] at h
      simp only [Option.some.injEq, Prod.mk.injEq] at h
      refine Or.inr ⟨idx.toNat, v, h1, h2, hm.1, hm.2, ?_, h.1.symm, h.2.symm⟩
      intro hne
      simp only [hne, if_false, Option.some.injEq] at hidx
      rw [hidx, Int.toNat_of_nonneg h0]
    · simp only [Option.some.injEq, Prod.mk.injEq] at h
      exact Or.inl ⟨h.1.symm, h.2.symm⟩
  · simp only [Option.some.injEq, Prod.mk.injEq] at h
    exact Or.inl ⟨h.1.symm, h.2.symm⟩

/-- `Stop` on an explicit slot that sounds the pitch. -/
theorem stop_explicit (s : PolyphonyScheduler) (time pitch : Int) (c : Nat) (v : SchedVoiceInfo)
    (hv : s.mVoices[c]? = some v) (hp : v.mPitch = floatOfInt pitch) (hn : v.mNoteOn = true) :
    Stop s time pitch (c : Int)
      = some ({ s with mVoices := s.mVoices.set c ⟨-1, v.mTime, false⟩ },
          [ReceiverCall.StopVoice c (-1) v.mTime]) := by
  have hc : c < s.mVoices.length := (List.getElem?_eq_some.mp hv).1
  have h1 : ¬ ((c : Int) = -1) := by omega
  have h2 : (c : Int) > -1 := by omega
  unfold Stop
  simp only [h1, if_false, h2, if_true, readVoice_natCast, hv, hp, hn, and_self, Int.toNat_ofNat,
    clearVoice_of_lt _ _ _ hc]

/-- `Stop` without an explicit slot, in closed form, when the limit is within the array. -/
theorem stop_auto_spec (s : PolyphonyScheduler) (time pitch : Int)
    (hlim : s.mVoiceLimit ≤ s.kNumVoices) :
    (Stop s time pitch (-1) = some (s, []) ∧
      ∀ j : Nat, (j : Int) < s.mVoiceLimit → ∀ v, s.mVoices[j]? = some v →
        v.mPitch = floatOfInt pitch →
        v.mNoteOn = true → DBL_MAX ≤ v.mTime) ∨
    (∃ (r : Nat) (vr : SchedVoiceInfo), (r : Int) < s.mVoiceLimit ∧ s.mVoices[r]? = some vr ∧
      vr.mPitch = floatOfInt pitch ∧ vr.mNoteOn = true ∧ vr.mTime < DBL_MAX ∧
      (∀ j : Nat, (j : Int) < s.mVoiceLimit → ∀ v, s.mVoices[j]? = some v →
        v.mPitch = floatOfInt pitch →
        v.mNoteOn = true → vr.mTime ≤ v.mTime) ∧
      (∀ j : Nat, j < r → ∀ v, s.mVoices[j]? = some v → v.mPitch = floatOfInt pitch →
        v.mNoteOn = true → vr.mTime < v.mTime) ∧
      Stop s time pitch (-1)
        = some ({ s with mVoices := s.mVoices.set r ⟨-1, vr.mTime, false⟩ },
            [ReceiverCall.StopVoice r (-1) vr.mTime])) := by
  have hlen : s.mVoiceLimit ≤ (s.mVoices.length : Int) := hlim
  obtain ⟨res, o1, hres, hscan⟩ := stop_findOldest_spec s pitch s.mVoiceLimit.toNat 0 DBL_MAX (-1)
    (by omega) (Or.inl ⟨rfl, rfl, fun j hj => absurd hj (Nat.not_lt_zero j)⟩)
  have hunf : Stop s time pitch (-1) =
      match Stop.findOldest s pitch s.mVoiceLimit.toNat 0 DBL_MAX (-1) with
      | none => none
      | some voiceIdx =>
        if voiceIdx > -1 then
          match readVoice s.mVoices voiceIdx with
          | none => none
          | some v =>
            if v.mPitch = floatOfInt pitch ∧ v.mNoteOn = true then
              match clearVoice s.mVoices voiceIdx.toNat v with
              | none => none
              | some (vs, c) => some ({ s with mVoices := vs }, [c])
            else some (s, [])
        else some (s, []) := by
    simp [Stop]
  rw [hunf, hres]
  rcases hscan with ⟨h1, _, h3⟩ | ⟨r, h1, h2, vr, h3, h4, h5, h6, h7, h8, h9⟩
  · left
    subst h1
    refine ⟨by simp, ?_⟩
    intro j hj
    exact h3 j (by omega)
  · right
    have hr : r < s.mVoices.length := (List.getElem?_eq_some.mp h3).1
    subst h1
    refine ⟨r, vr, by omega, h3, h4, h5, by omega, ?_, ?_, ?_⟩
    · intro j hj v hv hp hn
      rw [h6]
      exact h8 j (by omega) v hv hp hn
    · intro j hj v hv hp hn
      rw [h6]
      exact h9 j hj v hv hp hn
    · have hgt : (r : Int) > -1 := by omega
      simp only [hgt, if_true, readVoice_natCast, h3, h4, h5, and_self, Int.toNat_ofNat,
        clearVoice_of_lt _ _ _ hr]

/-! ## KillAll -/

theorem killAll_loop_spec (n i : Nat) (vs : List SchedVoiceInfo) (calls : List ReceiverCall)
    (h : i + n = vs.length) :
    ∃ vs1, KillAll.loop n i vs calls
        = some (vs1, calls ++ (List.range' i n).filterMap (stopCallAt vs)) ∧
      vs1.length = vs.length ∧
      ∀ j : Nat, vs1[j]? = if i ≤ j then (vs[j]?).map killSlot else vs[j]? := by
  induction n generalizing i vs calls with
  | zero =>
    refine ⟨vs, by simp [KillAll.loop], rfl, ?_⟩
    intro j
    split
    · have hj : vs.length ≤ j := by omega
      simp [List.getElem?_eq_none hj]
    · rfl
  | succ n ih =>
    have hi : i < vs.length := by omega
    have hvi : vs[i]? = some vs[i] := List.getElem?_eq_getElem hi
    unfold KillAll.loop
    rw [readVoice_natCast, hvi]
    simp only
    by_cases hn : vs[i].mNoteOn = true
    · rw [if_pos hn, clearVoice_of_lt _ _ _ hi]
      simp only
      obtain ⟨vs1, h1, h2, h3⟩ := ih (i + 1) (vs.set i ⟨-1, vs[i].mTime, false⟩)
        (calls ++ [ReceiverCall.StopVoice i (-1) vs[i].mTime]) (by simp; omega)
      refine ⟨vs1, ?_, by simpa using h2, ?_⟩
      · rw [h1, List.range'_succ, List.filterMap_cons]
        have hc : stopCallAt vs i = some (ReceiverCall.StopVoice i (-1) vs[i].mTime) := by
          simp [stopCallAt, hvi, hn]
        rw [hc]
        simp only [List.append_assoc, List.singleton_append]
        congr 4
        apply List.filterMap_congr
        intro j hj
        have hij : i ≠ j := by
          have := (List.mem_range'_1.mp hj).1
          omega
        simp [stopCallAt, List.getElem?_set_ne hij]
      · intro j
        rw [h3 j]
        by_cases hji : j = i
        · subst hji
          simp [List.getElem?_set_self hi, hvi, killSlot, hn]
        · have hne : i ≠ j := fun h => hji h.symm
          rw [List.getElem?_set_ne hne]
          by_cases hle : i ≤ j
          · have : i + 1 ≤ j := by omega
            simp [hle, this]
          · have : ¬ i + 1 ≤ j := by omega
            simp [hle, this]
    · rw [if_neg hn]
      obtain ⟨vs1, h1, h2, h3⟩ := ih (i + 1) vs calls (by omega)
      refine ⟨vs1, ?_, h2, ?_⟩
      · rw [h1, List.range'_succ, List.filterMap_cons]
        have hc : stopCallAt vs i = none := by
          simp [stopCallAt, hvi, hn]
        rw [hc]
      · intro j
        rw [h3 j]
        by_cases hji : j = i
        · subst hji
          simp [hvi, killSlot, hn]
        · by_cases hle : i ≤ j
          · have : i + 1 ≤ j := by omega
            simp [hle, this]
          · have : ¬ i + 1 ≤ j := by omega
            simp [hle, this]

/-- `KillAll` in closed form: every slot goes through `killSlot`, and the callbacks are the
`StopVoice` calls of the sounding slots in index order. -/
theorem killAll_spec (s : PolyphonyScheduler) :
    KillAll s = some ({ s with mVoices := s.mVoices.map killSlot },
      (List.range s.mVoices.length).filterMap (stopCallAt s.mVoices)) := by
  obtain ⟨vs1, h1, h2, h3⟩ := killAll_loop_spec s.mVoices.length 0 s.mVoices [] (by simp)
  have hvs : vs1 = s.mVoices.map killSlot := by
    apply List.ext_getElem?
    intro j
    rw [h3 j]
    simp
  unfold KillAll kNumVoices
  rw [h1, hvs]
  simp [List.range_eq_range']

/-! ## Invariants along a sequence of calls -/

theorem run_invariant (P : PolyphonyScheduler → Prop) (ops : List Op)
    (hP : ∀ s op s1 c, op ∈ ops → P s → step s op = some (s1, c) → P s1) :
    ∀ s s1 c, P s → run s ops = some (s1, c) → P s1 := by
  induction ops with
  | nil =>
    intro s s1 c hs h
    simp only [run, Option.some.injEq, Prod.mk.injEq] at h
    rw [← h.1]
    exact hs
  | cons op ops ih =>
    intro s s1 c hs h
    unfold run at h
    split at h
    · cases h
    rename_i sa ca hstep
    split at h
    · cases h
    rename_i sb cb hrun
    simp only [Option.some.injEq, Prod.mk.injEq] at h
    rw [← h.1]
    exact ih (fun s op s1 c hop => hP s op s1 c (List.mem_cons_of_mem _ hop)) sa sb cb
      (hP s op sa ca (List.mem_cons_self _ _) hs hstep) hrun

/-- The slot array after one call: same length, and each slot is either untouched, filled by
`Start` (sounding), or cleared to pitch `-1`, not sounding, with its time kept. -/
theorem step_slots {s s1 : PolyphonyScheduler} {op : Op} {c : List ReceiverCall}
    (h : step s op = some (s1, c)) :
    s1.mVoices.length = s.mVoices.length ∧
    ∀ (j : Nat) (w : SchedVoiceInfo), s1.mVoices[j]? = some w →
      s.mVoices[j]? = some w ∨ w.mNoteOn = true ∨
      (w.mPitch = -1 ∧ w.mNoteOn = false ∧ ∃ v, s.mVoices[j]? = some v ∧ v.mTime = w.mTime) := by
  cases op with
  | start time pitch amount voiceIdx modulation =>
    rcases Start_inv h with ⟨h1, _⟩ | ⟨r, hr, _, h1, _⟩
    · subst h1
      exact ⟨rfl, fun j w hw => Or.inl hw⟩
    · subst h1
      refine ⟨by simp, ?_⟩
      intro j w hw
      by_cases hj : r = j
      · subst hj
        simp only [List.getElem?_set_self hr, Option.some.injEq] at hw
        right; left
        rw [← hw]
      · simp only [List.getElem?_set_ne hj] at hw
        exact Or.inl hw
  | stop time pitch voiceIdx =>
    rcases @Stop_inv s s1 time pitch voiceIdx c h with ⟨h1, _⟩ | ⟨r, vr, hr, hvr, _, _, _, h1, _⟩
    · subst h1
      exact ⟨rfl, fun j w hw => Or.inl hw⟩
    · subst h1
      refine ⟨by simp, ?_⟩
      intro j w hw
      by_cases hj : r = j
      · subst hj
        simp only [List.getElem?_set_self hr, Option.some.injEq] at hw
        right; right
        rw [← hw]
        exact ⟨rfl, rfl, vr, hvr, rfl⟩
      · simp only [List.getElem?_set_ne hj] at hw
        exact Or.inl hw
  | setVoiceLimit limit =>
    simp only [step, SetVoiceLimit, Option.some.injEq, Prod.mk.injEq] at h
    rw [← h.1]
    exact ⟨rfl, fun j w hw => Or.inl hw⟩
  | killAll =>
    simp only [step, killAll_spec, Option.some.injEq, Prod.mk.injEq] at h
    rw [← h.1]
    refine ⟨by simp, ?_⟩
    intro j w hw
    simp only [List.getElem?_map, Option.map_eq_some'] at hw
    obtain ⟨v, hv, hvw⟩ := hw
    unfold killSlot at hvw
    split at hvw
    · right; right
      rw [← hvw]
      exact ⟨rfl, rfl, v, hv, rfl⟩
    · left
      rw [← hvw]
      exact hv

theorem step_noteOffFree {s s1 : PolyphonyScheduler} {op : Op} {c : List ReceiverCall}
    (hs : NoteOffFree s) (h : step s op = some (s1, c)) : NoteOffFree s1 := by
  intro j w hw hoff
  rcases (step_slots h).2 j w hw with h1 | h1 | h1
  · exact hs j w h1 hoff
  · rw [hoff] at h1
    cases h1
  · exact h1.1

theorem noteOffFree_init (n : Nat) : NoteOffFree (init n) := by
  intro j v hv _
  simp only [init, List.getElem?_replicate] at hv
  split at hv
  · cases hv
    rfl
  · cases hv

theorem reachable_noteOffFree {n : Nat} {s : PolyphonyScheduler} (h : Reachable n s) :
    NoteOffFree s := by
  obtain ⟨ops, calls, hrun⟩ := h
  exact run_invariant NoteOffFree ops (fun s op s1 c _ hs hst => step_noteOffFree hs hst)
    (init n) s calls (noteOffFree_init n) hrun

/-! ## Claims on Stop and KillAll -/

/-- C5 (amended): a slot sounds pitch `p` when it is note-on and `mPitch == (float)p`. With
`mVoiceLimit ≤ kNumVoices`, if one of the first `mVoiceLimit` slots sounds `p` with a start
time below `DBL_MAX`, `Stop(time, p, -1)` frees a slot of least start time among the slots
below `mVoiceLimit` that sound `p`, and changes no other slot; if none of the first
`mVoiceLimit` slots sounds `p`, `Stop` changes nothing and makes no callback. -/
theorem C5_stop_frees_oldest_within_limit (s : PolyphonyScheduler) (time pitch : Int)
    (hlim : s.mVoiceLimit ≤ s.kNumVoices) :
    ((∃ i : Nat, (i : Int) < s.mVoiceLimit ∧ ∃ v, s.mVoices[i]? = some v ∧
        v.mPitch = floatOfInt pitch ∧ v.mNoteOn = true ∧ v.mTime < DBL_MAX) →
      ∃ (r : Nat) (vr : SchedVoiceInfo) (s1 : PolyphonyScheduler),
        (r : Int) < s.mVoiceLimit ∧ s.mVoices[r]? = some vr ∧ vr.mPitch = floatOfInt pitch ∧
        vr.mNoteOn = true ∧
        (∀ j : Nat, (j : Int) < s.mVoiceLimit → ∀ v, s.mVoices[j]? = some v →
          v.mPitch = floatOfInt pitch → v.mNoteOn = true → vr.mTime ≤ v.mTime) ∧
        Stop s time pitch (-1) = some (s1, [ReceiverCall.StopVoice r (-1) vr.mTime]) ∧
        (∃ w, s1.mVoices[r]? = some w ∧ w.mPitch = -1 ∧ w.mNoteOn = false) ∧
        (∀ j : Nat, j ≠ r → s1.mVoices[j]? = s.mVoices[j]?)) ∧
    ((¬ ∃ i : Nat, (i : Int) < s.mVoiceLimit ∧ ∃ v, s.mVoices[i]? = some v ∧
        v.mPitch = floatOfInt pitch ∧ v.mNoteOn = true) →
      Stop s time pitch (-1) = some (s, [])) := by
  constructor
  · rintro ⟨i, hi, v, hv, hp, hn, ht⟩
    rcases stop_auto_spec s time pitch hlim with ⟨_, hnone⟩ | ⟨r, vr, h1, h2, h3, h4, _, h6, _, h8⟩
    · exact absurd ht (not_lt.mpr (hnone i hi v hv hp hn))
    · have hr : r < s.mVoices.length := (List.getElem?_eq_some.mp h2).1
      refine ⟨r, vr, _, h1, h2, h3, h4, h6, h8, ⟨⟨-1, vr.mTime, false⟩, ?_, rfl, rfl⟩, ?_⟩
      · simp [List.getElem?_set_self hr]
      · intro j hj
        simp [List.getElem?_set_ne (Ne.symm hj)]
  · intro hnone
    rcases stop_auto_spec s time pitch hlim with ⟨h, _⟩ | ⟨r, vr, h1, h2, h3, h4, _⟩
    · exact h
    · exact absurd ⟨r, h1, vr, h2, h3, h4⟩ hnone

/-- C5 as stated fails: (1) a sounding slot at or above `mVoiceLimit` is not found by `Stop`;
(2) a sounding slot whose start time is `DBL_MAX` is not found either; (3) with `mVoiceLimit`
above `kNumVoices` the search reads outside the array; (4) the pitch test is made on `float`
values: after `Start` of pitch `2^24 + 1` no slot holds that number (the slot holds `2^24`),
yet `Stop` of pitch `2^24 + 1` frees the slot. -/
theorem C5_counterexample :
    (run (init 2) [.start 1 60 100 (-1) 0, .start 2 62 100 (-1) 0, .setVoiceLimit 1]
        = some (exBeyondLimit,
            [ReceiverCall.StartVoice 0 1 60 100 0, ReceiverCall.StartVoice 1 2 62 100 0]) ∧
      exBeyondLimit.mVoices[1]? = some ⟨62, 2, true⟩ ∧
      Stop exBeyondLimit 3 62 (-1) = some (exBeyondLimit, [])) ∧
    (run (init 1) [.start DBL_MAX 60 100 (-1) 0]
        = some (exMaxTime, [ReceiverCall.StartVoice 0 DBL_MAX 60 100 0]) ∧
      exMaxTime.mVoices[0]? = some ⟨60, DBL_MAX, true⟩ ∧
      Stop exMaxTime 3 60 (-1) = some (exMaxTime, [])) ∧
    Stop (SetVoiceLimit (init 1) 2) 3 60 (-1) = none ∧
    (run (init 1) [.start 1 16777217 100 (-1) 0]
        = some (⟨[⟨16777216, 1, true⟩], true, 0, 1⟩,
            [ReceiverCall.StartVoice 0 1 16777217 100 0]) ∧
      Stop ⟨[⟨16777216, 1, true⟩], true, 0, 1⟩ 2 16777217 (-1)
        = some (⟨[⟨-1, 1, false⟩], true, 0, 1⟩, [ReceiverCall.StopVoice 0 (-1) 1])) := by
  refine ⟨⟨by decide, by decide, by decide⟩, ⟨by decide, by decide, by decide⟩, by decide,
    by decide, by decide⟩

theorem exDuplicates_no_pitch_99 :
    ¬ ∃ i : Nat, (i : Int) < exDuplicates.mVoiceLimit ∧ ∃ v, exDuplicates.mVoices[i]? = some v ∧
      v.mPitch = floatOfInt 99 ∧ v.mNoteOn = true := by
  rintro ⟨i, hi, v, hv, hp, _⟩
  have hi4 : i < 4 := by
    have : (i : Int) < 4 := hi
    omega
  interval_cases i <;> simp [exDuplicates] at hv <;> subst hv <;> revert hp <;> decide

/-- The oldest-duplicate statement at `exDuplicates`: pitch 62 sounds twice and the older one
is freed; pitch 99 does not sound and `Stop` does nothing. -/
theorem C5_stop_frees_oldest_within_limit_witness :
    exDuplicates.mVoiceLimit ≤ exDuplicates.kNumVoices ∧
    (∃ (r : Nat) (vr : SchedVoiceInfo) (s1 : PolyphonyScheduler),
      (r : Int) < exDuplicates.mVoiceLimit ∧ exDuplicates.mVoices[r]? = some vr ∧
      vr.mPitch = floatOfInt 62 ∧ vr.mNoteOn = true ∧
      (∀ j : Nat, (j : Int) < exDuplicates.mVoiceLimit → ∀ v,
        exDuplicates.mVoices[j]? = some v →
        v.mPitch = floatOfInt 62 → v.mNoteOn = true → vr.mTime ≤ v.mTime) ∧
      Stop exDuplicates 9 62 (-1) = some (s1, [ReceiverCall.StopVoice r (-1) vr.mTime]) ∧
      (∃ w, s1.mVoices[r]? = some w ∧ w.mPitch = -1 ∧ w.mNoteOn = false) ∧
      (∀ j : Nat, j ≠ r → s1.mVoices[j]? = exDuplicates.mVoices[j]?)) ∧
    Stop exDuplicates 9 99 (-1) = some (exDuplicates, []) :=
  ⟨by decide,
    (C5_stop_frees_oldest_within_limit exDuplicates 9 62 (by decide)).1
      ⟨1, by decide, ⟨62, 7, true⟩, rfl, rfl, rfl, by decide⟩,
    (C5_stop_frees_oldest_within_limit exDuplicates 9 99 (by decide)).2
      exDuplicates_no_pitch_99⟩

theorem stopCallAt_some {vs : List SchedVoiceInfo} {j : Nat} {c : ReceiverCall}
    (h : stopCallAt vs j = some c) :
    ∃ v, vs[j]? = some v ∧ v.mNoteOn = true ∧ c = ReceiverCall.StopVoice j (-1) v.mTime := by
  unfold stopCallAt at h
  split at h
  · rename_i v hv
    split at h
    · rename_i hn
      simp only [Option.some.injEq] at h
      exact ⟨v, hv, hn, h.symm⟩
    · cases h
  · cases h

/-- C6: in every state reachable from the constructed scheduler, `KillAll` calls `StopVoice`
exactly once for each sounding slot and for no other slot, and afterwards every slot has pitch
`-1` and is not sounding; with no sounding slot it makes no callback and changes nothing. -/
theorem C6_killAll_stops_each_active_slot_once (n : Nat) (s : PolyphonyScheduler)
    (hreach : Reachable n s) :
    ∃ (s1 : PolyphonyScheduler) (calls : List ReceiverCall), KillAll s = some (s1, calls) ∧
      (∀ (j : Nat) (v : SchedVoiceInfo), s.mVoices[j]? = some v → v.mNoteOn = true →
        calls.count (ReceiverCall.StopVoice j (-1) v.mTime) = 1) ∧
      (∀ c ∈ calls, ∃ (j : Nat) (v : SchedVoiceInfo), s.mVoices[j]? = some v ∧
        v.mNoteOn = true ∧ c = ReceiverCall.StopVoice j (-1) v.mTime) ∧
      s1.mVoices.length = s.mVoices.length ∧
      (∀ (j : Nat) (w : SchedVoiceInfo), s1.mVoices[j]? = some w →
        w.mPitch = -1 ∧ w.mNoteOn = false) ∧
      ((∀ (j : Nat) (v : SchedVoiceInfo), s.mVoices[j]? = some v → v.mNoteOn = false) →
        calls = [] ∧ s1 = s) := by
  have hinv := reachable_noteOffFree hreach
  refine ⟨_, _, killAll_spec s, ?_, ?_, by simp, ?_, ?_⟩
  · intro j v hv hn
    apply List.count_eq_one_of_mem
    · apply List.Nodup.filterMap _ (List.nodup_range _)
      intro a a1 b hb hb1
      obtain ⟨_, _, _, h1⟩ := stopCallAt_some (Option.mem_def.mp hb)
      obtain ⟨_, _, _, h2⟩ := stopCallAt_some (Option.mem_def.mp hb1)
      rw [h1] at h2
      simp only [ReceiverCall.StopVoice.injEq] at h2
      exact h2.1
    · rw [List.mem_filterMap]
      refine ⟨j, List.mem_range.mpr (List.getElem?_eq_some.mp hv).1, ?_⟩
      simp [stopCallAt, hv, hn]
  · intro c hc
    rw [List.mem_filterMap] at hc
    obtain ⟨j, _, hj⟩ := hc
    obtain ⟨v, h1, h2, h3⟩ := stopCallAt_some hj
    exact ⟨j, v, h1, h2, h3⟩
  · intro j w hw
    simp only [List.getElem?_map, Option.map_eq_some'] at hw
    obtain ⟨v, hv, hvw⟩ := hw
    unfold killSlot at hvw
    split at hvw
    · rw [← hvw]
      exact ⟨rfl, rfl⟩
    · rename_i hn
      rw [← hvw]
      have hoff : v.mNoteOn = false := by simpa using hn
      exact ⟨hinv j v hv hoff, hoff⟩
  · intro hoff
    constructor
    · rw [List.filterMap_eq_nil_iff]
      intro j _
      cases hc : stopCallAt s.mVoices j with
      | none => rfl
      | some c =>
        obtain ⟨v, h1, h2, _⟩ := stopCallAt_some hc
        rw [hoff j v h1] at h2
        cases h2
    · have hmap : s.mVoices.map killSlot = s.mVoices := by
        apply List.ext_getElem?
        intro j
        rw [List.getElem?_map]
        cases hv : s.mVoices[j]? with
        | none => rfl
        | some v => simp [killSlot, hoff j v hv]
      rw [hmap]

theorem reachable_exBeyondLimit : Reachable 2 exBeyondLimit :=
  ⟨[.start 1 60 100 (-1) 0, .start 2 62 100 (-1) 0, .setVoiceLimit 1],
    [ReceiverCall.StartVoice 0 1 60 100 0, ReceiverCall.StartVoice 1 2 62 100 0], by decide⟩

/-- The `KillAll` statement at the reachable state `exBeyondLimit`. -/
theorem C6_killAll_stops_each_active_slot_once_witness :
    Reachable 2 exBeyondLimit ∧
    ∃ (s1 : PolyphonyScheduler) (calls : List ReceiverCall),
      KillAll exBeyondLimit = some (s1, calls) ∧
      (∀ (j : Nat) (v : SchedVoiceInfo), exBeyondLimit.mVoices[j]? = some v → v.mNoteOn = true →
        calls.count (ReceiverCall.StopVoice j (-1) v.mTime) = 1) ∧
      (∀ c ∈ calls, ∃ (j : Nat) (v : SchedVoiceInfo), exBeyondLimit.mVoices[j]? = some v ∧
        v.mNoteOn = true ∧ c = ReceiverCall.StopVoice j (-1) v.mTime) ∧
      s1.mVoices.length = exBeyondLimit.mVoices.length ∧
      (∀ (j : Nat) (w : SchedVoiceInfo), s1.mVoices[j]? = some w →
        w.mPitch = -1 ∧ w.mNoteOn = false) ∧
      ((∀ (j : Nat) (v : SchedVoiceInfo), exBeyondLimit.mVoices[j]? = some v →
          v.mNoteOn = false) →
        calls = [] ∧ s1 = exBeyondLimit) :=
  ⟨reachable_exBeyondLimit,
    C6_killAll_stops_each_active_slot_once 2 exBeyondLimit reachable_exBeyondLimit⟩

/-! ## Round-robin fill -/

/-- `Start` when the slot right after the cursor is free. -/
theorem start_next_free (s : PolyphonyScheduler) (time pitch amount : Int)
    (m : ModulationParameters) (k : Nat) (hlast : s.mLastVoice = (k : Int) - 1)
    (hk : (k : Int) < s.mVoiceLimit) (hlim : s.mVoiceLimit ≤ s.kNumVoices)
    (hfree : ∃ v, s.mVoices[k]? = some v ∧ v.mPitch = -1) :
    Start s time pitch amount (-1) m
      = some ({ s with mLastVoice := (k : Int),
                       mVoices := s.mVoices.set k ⟨floatOfInt pitch, time, true⟩ },
          [ReceiverCall.StartVoice k time pitch amount m]) := by
  have hl : -1 ≤ s.mLastVoice := by omega
  have hv : 0 < s.mVoiceLimit := by omega
  have hlen : s.mVoiceLimit ≤ (s.mVoices.length : Int) := hlim
  have hchk : (s.mLastVoice + 1 + ((0 : Nat) : Int)) % s.mVoiceLimit = (k : Int) := by
    rw [hlast]
    have : (k : Int) - 1 + 1 + ((0 : Nat) : Int) = k := by omega
    rw [this]
    exact Int.emod_eq_of_lt (by omega) hk
  have hfind := findFree_found s hl hv s.mVoiceLimit.toNat 0 0 (le_refl 0) (by omega)
    (by rw [hchk, readVoice_natCast]; exact hfree)
    (fun j _ hj => absurd hj (Nat.not_lt_zero j))
  rw [hchk] at hfind
  rw [Start_auto, hfind]
  have hne : ¬ ((k : Int) = -1) := by omega
  simp only [hne, if_false]
  exact assign_of_lt s k (by omega) time pitch amount m

theorem fill_in_order (notes : List Note) :
    ∀ (s : PolyphonyScheduler) (k : Nat), s.mLastVoice = (k : Int) - 1 →
      ((k + notes.length : Nat) : Int) ≤ s.mVoiceLimit → s.mVoiceLimit ≤ s.kNumVoices →
      (∀ j : Nat, k ≤ j → (j : Int) < s.mVoiceLimit →
        ∃ v, s.mVoices[j]? = some v ∧ v.mPitch = -1) →
      ∃ (s1 : PolyphonyScheduler) (calls : List ReceiverCall),
        run s (notes.map Note.start) = some (s1, calls) ∧ calls.length = notes.length ∧
        (∀ (i : Nat) (x : Note), notes[i]? = some x →
          calls[i]? = some (ReceiverCall.StartVoice (k + i) x.time x.pitch x.amount x.modulation)
          ∧ s1.mVoices[k + i]? = some ⟨floatOfInt x.pitch, x.time, true⟩) ∧
        (∀ j : Nat, j < k → s1.mVoices[j]? = s.mVoices[j]?) := by
  induction notes with
  | nil =>
    intro s k _ _ _ _
    refine ⟨s, [], rfl, rfl, ?_, fun j _ => rfl⟩
    intro i x hx
    simp at hx
  | cons x xs ih =>
    intro s k hlast hlen hlim hfree
    simp only [List.length_cons] at hlen
    have hk : (k : Int) < s.mVoiceLimit := by omega
    have hkl : k < s.mVoices.length := by
      have : s.mVoiceLimit ≤ (s.mVoices.length : Int) := hlim
      omega
    have hstart := start_next_free s x.time x.pitch x.amount x.modulation k hlast hk hlim
      (hfree k (le_refl k) hk)
    obtain ⟨s1, calls, hrun, hcl, hcalls, hkeep⟩ :=
      ih { s with mLastVoice := (k : Int),
                  mVoices := s.mVoices.set k ⟨floatOfInt x.pitch, x.time, true⟩ }
        (k + 1) (by simp) (by simp only; omega) (by simpa [kNumVoices] using hlim)
        (by
          intro j hj hjl
          have hne : k ≠ j := by omega
          simp only [List.getElem?_set_ne hne]
          exact hfree j (by omega) hjl)
    refine ⟨s1, ReceiverCall.StartVoice k x.time x.pitch x.amount x.modulation :: calls,
      ?_, by simp [hcl], ?_, ?_⟩
    · simp only [List.map_cons, run, step, Note.start, hstart, hrun, List.singleton_append]
    · intro i y hy
      cases i with
      | zero =>
        simp only [List.getElem?_cons_zero, Option.some.injEq] at hy
        subst hy
        refine ⟨by simp, ?_⟩
        rw [Nat.add_zero, hkeep k (by omega)]
        simp [List.getElem?_set_self hkl]
      | succ i =>
        simp only [List.getElem?_cons_succ] at hy
        obtain ⟨h1, h2⟩ := hcalls i y hy
        have hidx : k + (i + 1) = k + 1 + i := by omega
        rw [hidx]
        exact ⟨by simpa using h1, h2⟩
    · intro j hj
      rw [hkeep j (by omega)]
      have hne : k ≠ j := by omega
      simp [List.getElem?_set_ne hne]

/-- C7: from the constructed scheduler with `n` slots and voice limit `V ≤ n`, `V` calls of
`Start` with no explicit slot all succeed, the `k`-th of them (counting from 0) is handed to
`StartVoice` with slot index `k`, and slot `k` holds that note afterwards (its pitch as
converted to the `float` field). Scenario: limit 4,
pitches 60, 62, 64, 65 at times 1 to 4 fill slots 0 to 3, and a fifth `Start` of pitch 67
(stealing enabled) is assigned slot 0, replacing pitch 60. -/
theorem C7_round_robin_fill (V n : Nat) (hV : V ≤ n) (notes : List Note)
    (hlen : notes.length = V) :
    (∃ (s1 : PolyphonyScheduler) (calls : List ReceiverCall),
      run (SetVoiceLimit (init n) V) (notes.map Note.start) = some (s1, calls) ∧
      calls.length = V ∧
      ∀ (k : Nat) (x : Note), notes[k]? = some x →
        calls[k]? = some (ReceiverCall.StartVoice k x.time x.pitch x.amount x.modulation)
        ∧ s1.mVoices[k]? = some ⟨floatOfInt x.pitch, x.time, true⟩
        ∧ (x.pitch.natAbs ≤ 16777216 → s1.mVoices[k]? = some ⟨x.pitch, x.time, true⟩)) ∧
    run (SetVoiceLimit (init 4) 4)
        [.start 1 60 100 (-1) 0, .start 2 62 100 (-1) 0, .start 3 64 100 (-1) 0,
          .start 4 65 100 (-1) 0, .start 5 67 100 (-1) 0]
      = some (⟨[⟨67, 5, true⟩, ⟨62, 2, true⟩, ⟨64, 3, true⟩, ⟨65, 4, true⟩], true, 0, 4⟩,
          [ReceiverCall.StartVoice 0 1 60 100 0, ReceiverCall.StartVoice 1 2 62 100 0,
            ReceiverCall.StartVoice 2 3 64 100 0, ReceiverCall.StartVoice 3 4 65 100 0,
            ReceiverCall.StartVoice 0 5 67 100 0]) := by
  refine ⟨?_, by decide⟩
  obtain ⟨s1, calls, h1, h2, h3, _⟩ := fill_in_order notes (SetVoiceLimit (init n) V) 0
    (by simp [SetVoiceLimit, init]) (by simp [SetVoiceLimit, hlen])
    (by simp [SetVoiceLimit, init, kNumVoices, hV])
    (by
      intro j _ hj
      have hjn : j < n := by
        have : (j : Int) < V := hj
        omega
      exact ⟨⟨-1, 0, false⟩, by simp [SetVoiceLimit, init, hjn], rfl⟩)
  refine ⟨s1, calls, h1, by rw [h2, hlen], ?_⟩
  intro k x hx
  have hk := h3 k x hx
  simp only [Nat.zero_add] at hk
  refine ⟨hk.1, hk.2, ?_⟩
  intro hsmall
  rw [← floatOfInt_of_le hsmall]
  exact hk.2

/-- The fill-order statement for 16 slots, limit 4 and the four notes of the scenario. -/
theorem C7_round_robin_fill_witness :
    (4 ≤ 16 ∧ [Note.mk 1 60 100 0, Note.mk 2 62 100 0, Note.mk 3 64 100 0,
        Note.mk 4 65 100 0].length = 4) ∧
    ((∃ (s1 : PolyphonyScheduler) (calls : List ReceiverCall),
      run (SetVoiceLimit (init 16) (4 : Nat))
        ([Note.mk 1 60 100 0, Note.mk 2 62 100 0, Note.mk 3 64 100 0,
          Note.mk 4 65 100 0].map Note.start) = some (s1, calls) ∧
      calls.length = 4 ∧
      ∀ (k : Nat) (x : Note),
        [Note.mk 1 60 100 0, Note.mk 2 62 100 0, Note.mk 3 64 100 0,
          Note.mk 4 65 100 0][k]? = some x →
        calls[k]? = some (ReceiverCall.StartVoice k x.time x.pitch x.amount x.modulation)
        ∧ s1.mVoices[k]? = some ⟨floatOfInt x.pitch, x.time, true⟩
        ∧ (x.pitch.natAbs ≤ 16777216 → s1.mVoices[k]? = some ⟨x.pitch, x.time, true⟩)) ∧
    run (SetVoiceLimit (init 4) 4)
        [.start 1 60 100 (-1) 0, .start 2 62 100 (-1) 0, .start 3 64 100 (-1) 0,
          .start 4 65 100 (-1) 0, .start 5 67 100 (-1) 0]
      = some (⟨[⟨67, 5, true⟩, ⟨62, 2, true⟩, ⟨64, 3, true⟩, ⟨65, 4, true⟩], true, 0, 4⟩,
          [ReceiverCall.StartVoice 0 1 60 100 0, ReceiverCall.StartVoice 1 2 62 100 0,
            ReceiverCall.StartVoice 2 3 64 100 0, ReceiverCall.StartVoice 3 4 65 100 0,
            ReceiverCall.StartVoice 0 5 67 100 0])) :=
  ⟨⟨by decide, rfl⟩,
    C7_round_robin_fill 4 16 (by decide)
      [Note.mk 1 60 100 0, Note.mk 2 62 100 0, Note.mk 3 64 100 0, Note.mk 4 65 100 0] rfl⟩

/-! ## The voice limit bounds allocation -/

theorem step_wellFormed {s s1 : PolyphonyScheduler} {op : Op} {c : List ReceiverCall}
    (hs : WellFormed s) (h : step s op = some (s1, c)) : WellFormed s1 := by
  cases op with
  | start time pitch amount voiceIdx modulation =>
    rcases Start_inv h with ⟨h1, _⟩ | ⟨r, hr, _, h1, _⟩
    · rw [h1]
      exact hs
    · subst h1
      simp only [WellFormed, kNumVoices, List.length_set]
      omega
  | stop time pitch voiceIdx =>
    rcases @Stop_inv s s1 time pitch voiceIdx c h with ⟨h1, _⟩ | ⟨r, vr, _, _, _, _, _, h1, _⟩
    · rw [h1]
      exact hs
    · subst h1
      simpa [WellFormed, kNumVoices] using hs
  | setVoiceLimit limit =>
    simp only [step, SetVoiceLimit, Option.some.injEq, Prod.mk.injEq] at h
    rw [← h.1]
    exact hs
  | killAll =>
    simp only [step, killAll_spec, Option.some.injEq, Prod.mk.injEq] at h
    rw [← h.1]
    simpa [WellFormed, kNumVoices] using hs

theorem step_voiceLimit {s s1 : PolyphonyScheduler} {op : Op} {c : List ReceiverCall}
    (hop : ∀ l, op ≠ Op.setVoiceLimit l) (h : step s op = some (s1, c)) :
    s1.mVoiceLimit = s.mVoiceLimit := by
  cases op with
  | start time pitch amount voiceIdx modulation =>
    rcases Start_inv h with ⟨h1, _⟩ | ⟨r, hr, _, h1, _⟩
    · rw [h1]
    · rw [h1]
  | stop time pitch voiceIdx =>
    rcases @Stop_inv s s1 time pitch voiceIdx c h with ⟨h1, _⟩ | ⟨r, vr, _, _, _, _, _, h1, _⟩
    · rw [h1]
    · rw [h1]
  | setVoiceLimit limit => exact absurd rfl (hop limit)
  | killAll =>
    simp only [step, killAll_spec, Option.some.injEq, Prod.mk.injEq] at h
    rw [← h.1]

/-- With `1 ≤ mVoiceLimit ≤ kNumVoices`, `Start` with no explicit slot always returns: it
either drops the event or fills a slot below the limit. -/
theorem start_auto_total (s : PolyphonyScheduler) (time pitch amount : Int)
    (m : ModulationParameters) (hl : -1 ≤ s.mLastVoice)
    (h1 : 1 ≤ s.mVoiceLimit) (h2 : s.mVoiceLimit ≤ s.kNumVoices) :
    Start s time pitch amount (-1) m = some (s, []) ∨
    ∃ c : Nat, (c : Int) < s.mVoiceLimit ∧ c < s.mVoices.length ∧
      Start s time pitch amount (-1) m
        = some ({ s with mLastVoice := (c : Int),
                         mVoices := s.mVoices.set c ⟨floatOfInt pitch, time, true⟩ },
            [ReceiverCall.StartVoice c time pitch amount m]) := by
  have hlen : s.mVoiceLimit ≤ (s.mVoices.length : Int) := h2
  by_cases hfree : ∃ i : Nat, (i : Int) < s.mVoiceLimit ∧
      ∃ v, s.mVoices[i]? = some v ∧ v.mPitch = -1
  · obtain ⟨k, c, _, hc, hcl, _, _, hst⟩ := start_free s time pitch amount m hl h1 h2 hfree
    have hb := emod_bounds (s.mLastVoice + 1 + k) (by omega : 0 < s.mVoiceLimit)
    exact Or.inr ⟨c, by omega, hcl, hst⟩
  · have hocc : AllOccupied s := by
      intro i hi
      have hil : i < s.mVoices.length := by omega
      refine ⟨s.mVoices[i], List.getElem?_eq_getElem hil, ?_⟩
      intro hp
      exact hfree ⟨i, hi, _, List.getElem?_eq_getElem hil, hp⟩
    by_cases hsteal : s.mAllowStealing = true
    · obtain ⟨r, vr, hst, hr, hvr, _⟩ := start_steal s time pitch amount m hl h1 h2 hocc hsteal
      exact Or.inr ⟨r, hr, (List.getElem?_eq_some.mp hvr).1, hst⟩
    · left
      rw [Start_auto, findFree_of_allOccupied s hl hocc]
      simp [hsteal]

/-- C9 (amended): for `1 ≤ n ≤ kNumVoices`, `SetVoiceLimit(n)` changes no slot record, and
after any further calls other than `SetVoiceLimit`, a `Start` with no explicit slot returns,
hands `StartVoice` only a slot index below `n`, and leaves every slot of index `n` or more
unchanged. -/
theorem C9_voice_limit_bounds_allocation (s : PolyphonyScheduler) (n : Int)
    (hwf : WellFormed s) (h1 : 1 ≤ n) (h2 : n ≤ s.kNumVoices) :
    (SetVoiceLimit s n).mVoices = s.mVoices ∧
    ∀ (ops : List Op) (s1 : PolyphonyScheduler) (calls1 : List ReceiverCall),
      (∀ op ∈ ops, ∀ l, op ≠ Op.setVoiceLimit l) →
      run (SetVoiceLimit s n) ops = some (s1, calls1) →
      ∀ (time pitch amount : Int) (m : ModulationParameters),
        ∃ (s2 : PolyphonyScheduler) (calls : List ReceiverCall),
          Start s1 time pitch amount (-1) m = some (s2, calls) ∧
          (∀ (c : Nat) (t p a : Int) (m1 : ModulationParameters),
            ReceiverCall.StartVoice c t p a m1 ∈ calls → (c : Int) < n) ∧
          (∀ j : Nat, n ≤ (j : Int) → s2.mVoices[j]? = s1.mVoices[j]?) := by
  refine ⟨rfl, ?_⟩
  intro ops s1 calls1 hops hrun time pitch amount m
  have hinv : WellFormed s1 ∧ s1.mVoiceLimit = n ∧ s1.kNumVoices = s.kNumVoices :=
    run_invariant
      (fun t => WellFormed t ∧ t.mVoiceLimit = n ∧ t.kNumVoices = s.kNumVoices) ops
      (by
        intro t op t1 c hop ht hst
        refine ⟨step_wellFormed ht.1 hst, ?_, ?_⟩
        · rw [step_voiceLimit (hops op hop) hst]
          exact ht.2.1
        · have := (step_slots hst).1
          simp only [kNumVoices] at *
          rw [this]
          exact ht.2.2)
      (SetVoiceLimit s n) s1 calls1 ⟨hwf, rfl, rfl⟩ hrun
  obtain ⟨hwf1, hlim1, hcap1⟩ := hinv
  rcases start_auto_total s1 time pitch amount m hwf1.1 (by omega) (by omega) with
    h | ⟨c, hc, hcl, h⟩
  · refine ⟨_, _, h, ?_, fun j _ => rfl⟩
    intro c t p a m1 hmem
    simp at hmem
  · refine ⟨_, _, h, ?_, ?_⟩
    · intro c1 t p a m1 hmem
      simp only [List.mem_singleton, ReceiverCall.StartVoice.injEq] at hmem
      rw [hmem.1]
      omega
    · intro j hj
      have hne : c ≠ j := by omega
      simp [List.getElem?_set_ne hne]

/-- C9 as stated fails: (1) at `n = 0`, after `SetVoiceLimit(0)` a `Start` with no explicit
slot steals slot 0, an index that is not below `0`, and overwrites it; (2) the bound is that of
the latest `SetVoiceLimit` only: after `SetVoiceLimit(1)`, a `Start`, and `SetVoiceLimit(2)`,
the next `Start` is assigned slot 1. -/
theorem C9_counterexample :
    ((0 : Int) ≤ (init 2).kNumVoices ∧
      Start (SetVoiceLimit (init 2) 0) 1 60 100 (-1) 0
        = some (⟨[⟨60, 1, true⟩, ⟨-1, 0, false⟩], true, 0, 0⟩,
            [ReceiverCall.StartVoice 0 1 60 100 0]) ∧
      (SetVoiceLimit (init 2) 0).mVoices[0]? = some ⟨-1, 0, false⟩) ∧
    run (init 2) [.setVoiceLimit 1, .start 1 60 100 (-1) 0, .setVoiceLimit 2,
        .start 2 62 100 (-1) 0]
      = some (⟨[⟨60, 1, true⟩, ⟨62, 2, true⟩], true, 1, 2⟩,
          [ReceiverCall.StartVoice 0 1 60 100 0, ReceiverCall.StartVoice 1 2 62 100 0]) := by
  refine ⟨⟨by decide, by decide, by decide⟩, by decide⟩

/-- The voice-limit statement for four slots and `SetVoiceLimit(2)`. -/
theorem C9_voice_limit_bounds_allocation_witness :
    (WellFormed (init 4) ∧ (1 : Int) ≤ 2 ∧ (2 : Int) ≤ (init 4).kNumVoices) ∧
    ((SetVoiceLimit (init 4) 2).mVoices = (init 4).mVoices ∧
    ∀ (ops : List Op) (s1 : PolyphonyScheduler) (calls1 : List ReceiverCall),
      (∀ op ∈ ops, ∀ l, op ≠ Op.setVoiceLimit l) →
      run (SetVoiceLimit (init 4) 2) ops = some (s1, calls1) →
      ∀ (time pitch amount : Int) (m : ModulationParameters),
        ∃ (s2 : PolyphonyScheduler) (calls : List ReceiverCall),
          Start s1 time pitch amount (-1) m = some (s2, calls) ∧
          (∀ (c : Nat) (t p a : Int) (m1 : ModulationParameters),
            ReceiverCall.StartVoice c t p a m1 ∈ calls → (c : Int) < 2) ∧
          (∀ j : Nat, (2 : Int) ≤ (j : Int) → s2.mVoices[j]? = s1.mVoices[j]?)) :=
  ⟨⟨by decide, by decide, by decide⟩,
    C9_voice_limit_bounds_allocation (init 4) 2 (by decide) (by decide) (by decide)⟩

/-! ## Arguments of the stop callback -/

theorem stopArgsOk_append_stops (times : Nat → Option Int) (cs c2 : List ReceiverCall)
    (hcs : ∀ c ∈ cs, ∃ (j : Nat) (t : Int), c = ReceiverCall.StopVoice j (-1) t
      ∧ times j = some t)
    (h2 : stopArgsOk times c2) : stopArgsOk times (cs ++ c2) := by
  induction cs with
  | nil => exact h2
  | cons c cs ih =>
    obtain ⟨j, t, hc, ht⟩ := hcs c (List.mem_cons_self _ _)
    subst hc
    exact ⟨rfl, ht, ih (fun c hc => hcs c (List.mem_cons_of_mem _ hc))⟩

theorem run_stopArgsOk (ops : List Op) :
    ∀ (s : PolyphonyScheduler) (times : Nat → Option Int) (s1 : PolyphonyScheduler)
      (calls : List ReceiverCall),
      TimesInv s times → run s ops = some (s1, calls) → stopArgsOk times calls := by
  induction ops with
  | nil =>
    intro s times s1 calls _ h
    simp only [run, Option.some.injEq, Prod.mk.injEq] at h
    rw [← h.2]
    trivial
  | cons op ops ih =>
    intro s times s1 calls hinv h
    unfold run at h
    split at h
    · cases h
    rename_i sa ca hstep
    split at h
    · cases h
    rename_i sb cb hrun
    simp only [Option.some.injEq, Prod.mk.injEq] at h
    rw [← h.2]
    cases op with
    | start time pitch amount voiceIdx modulation =>
      rcases Start_inv hstep with ⟨h1, h2, _⟩ | ⟨r, hr, _, h1, h2⟩
      · subst h1
        subst h2
        exact ih _ times _ _ hinv hrun
      · subst h1
        subst h2
        refine ih _ (Function.update times r (some time)) _ _ ?_ hrun
        intro i v hv hn
        by_cases hi : r = i
        · subst hi
          simp only [List.getElem?_set_self hr, Option.some.injEq] at hv
          rw [← hv]
          simp
        · simp only [List.getElem?_set_ne hi] at hv
          rw [Function.update_noteq (Ne.symm hi)]
          exact hinv i v hv hn
    | stop time pitch voiceIdx =>
      rcases @Stop_inv s sa time pitch voiceIdx ca hstep with
        ⟨h1, h2⟩ | ⟨r, vr, hr, hvr, _, hon, _, h1, h2⟩
      · subst h1
        subst h2
        exact ih _ times _ _ hinv hrun
      · subst h1
        subst h2
        refine ⟨rfl, hinv r vr hvr hon, ih _ times _ _ ?_ hrun⟩
        intro i v hv hn
        by_cases hi : r = i
        · subst hi
          simp only [List.getElem?_set_self hr, Option.some.injEq] at hv
          rw [← hv] at hn
          cases hn
        · simp only [List.getElem?_set_ne hi] at hv
          exact hinv i v hv hn
    | setVoiceLimit limit =>
      simp only [step, SetVoiceLimit, Option.some.injEq, Prod.mk.injEq] at hstep
      rw [← hstep.2]
      refine ih _ times _ _ ?_ hrun
      rw [← hstep.1]
      exact hinv
    | killAll =>
      simp only [step, killAll_spec, Option.some.injEq, Prod.mk.injEq] at hstep
      rw [← hstep.2]
      apply stopArgsOk_append_stops
      · intro c hc
        rw [List.mem_filterMap] at hc
        obtain ⟨j, _, hj⟩ := hc
        obtain ⟨v, h1, h2, h3⟩ := stopCallAt_some hj
        exact ⟨j, v.mTime, h3, hinv j v h1 h2⟩
      · refine ih _ times _ _ ?_ hrun
        rw [← hstep.1]
        intro i w hw hn
        simp only [List.getElem?_map, Option.map_eq_some'] at hw
        obtain ⟨v, hv, hvw⟩ := hw
        unfold killSlot at hvw
        split at hvw
        · rw [← hvw] at hn
          cases hn
        · rw [← hvw]
          rw [← hvw] at hn
          exact hinv i v hv hn

/-- C8: (1) when `Stop` calls `StopVoice`, the call is `StopVoice(i, -1, t)` for a slot `i`
that was sounding the pitch (`mPitch == (float)pitch`), with `t` the `mTime` field of slot `i`,
whatever `time` was passed to `Stop`; (2) the same holds for every call made by `KillAll`;
(3) along any sequence of calls from the constructed scheduler, the `t` of each
`StopVoice(i, -1, t)` is the `time` of the latest `StartVoice` for slot `i`. -/
theorem C8_stop_callback_arguments (s : PolyphonyScheduler) (n : Nat) (ops : List Op) :
    (∀ (time pitch voiceIdx : Int) (s1 : PolyphonyScheduler) (calls : List ReceiverCall),
      Stop s time pitch voiceIdx = some (s1, calls) → ∀ c ∈ calls,
        ∃ (i : Nat) (v : SchedVoiceInfo), s.mVoices[i]? = some v ∧ v.mNoteOn = true ∧
          v.mPitch = floatOfInt pitch ∧ (pitch.natAbs ≤ 16777216 → v.mPitch = pitch) ∧
          c = ReceiverCall.StopVoice i (-1) v.mTime) ∧
    (∀ (s1 : PolyphonyScheduler) (calls : List ReceiverCall),
      KillAll s = some (s1, calls) → ∀ c ∈ calls,
        ∃ (i : Nat) (v : SchedVoiceInfo), s.mVoices[i]? = some v ∧ v.mNoteOn = true ∧
          c = ReceiverCall.StopVoice i (-1) v.mTime) ∧
    (∀ (sf : PolyphonyScheduler) (calls : List ReceiverCall),
      run (init n) ops = some (sf, calls) → stopArgsOk (fun _ => none) calls) := by
  refine ⟨?_, ?_, ?_⟩
  · intro time pitch voiceIdx s1 calls h c hc
    rcases Stop_inv h with ⟨_, h2⟩ | ⟨r, vr, _, hvr, hp, hon, _, _, h2⟩
    · rw [h2] at hc
      cases hc
    · rw [h2, List.mem_singleton] at hc
      exact ⟨r, vr, hvr, hon, hp, fun hsmall => by rw [hp, floatOfInt_of_le hsmall], hc⟩
  · intro s1 calls h c hc
    rw [killAll_spec] at h
    simp only [Option.some.injEq, Prod.mk.injEq] at h
    rw [← h.2, List.mem_filterMap] at hc
    obtain ⟨j, _, hj⟩ := hc
    obtain ⟨v, h1, h2, h3⟩ := stopCallAt_some hj
    exact ⟨j, v, h1, h2, h3⟩
  · intro sf calls hrun
    apply run_stopArgsOk ops (init n) (fun _ => none) sf calls _ hrun
    intro i v hv hn
    simp only [init, List.getElem?_replicate] at hv
    split at hv
    · cases hv
      cases hn
    · cases hv

/-- The callback-argument statement at `exDuplicates` (a `Stop` at time 9 reports time 4)
and on a trace of two starts, a stop and a `KillAll`. -/
theorem C8_stop_callback_arguments_witness :
    (∀ c ∈ [ReceiverCall.StopVoice 2 (-1) 4],
      ∃ (i : Nat) (v : SchedVoiceInfo), exDuplicates.mVoices[i]? = some v ∧ v.mNoteOn = true ∧
        v.mPitch = floatOfInt 62 ∧ ((62 : Int).natAbs ≤ 16777216 → v.mPitch = 62) ∧
        c = ReceiverCall.StopVoice i (-1) v.mTime) ∧
    stopArgsOk (fun _ => none)
      [ReceiverCall.StartVoice 0 1 60 100 0, ReceiverCall.StartVoice 1 2 62 100 0,
        ReceiverCall.StopVoice 1 (-1) 2, ReceiverCall.StopVoice 0 (-1) 1] :=
  ⟨(C8_stop_callback_arguments exDuplicates 0 []).1 9 62 (-1)
      ⟨[⟨60, 1, true⟩, ⟨62, 7, true⟩, ⟨-1, 4, false⟩, ⟨-1, 0, false⟩], true, 2, 4⟩
      [ReceiverCall.StopVoice 2 (-1) 4] (by decide),
    (C8_stop_callback_arguments exDuplicates 2
      [.start 1 60 100 (-1) 0, .start 2 62 100 (-1) 0, .stop 8 62 (-1), .killAll]).2.2
      ⟨[⟨-1, 1, false⟩, ⟨-1, 2, false⟩], true, 1, 2⟩
      [ReceiverCall.StartVoice 0 1 60 100 0, ReceiverCall.StartVoice 1 2 62 100 0,
        ReceiverCall.StopVoice 1 (-1) 2, ReceiverCall.StopVoice 0 (-1) 1] (by decide)⟩

/-! ## A freed slot -/

/-- C10 (amended): after a `Start` that fills slot `c` with `((float)pitch, time)`, a `Stop` or
`KillAll` that frees slot `c` leaves it with `mPitch = -1` and `mNoteOn = false`, as in a
never-used slot, and with `mTime` still equal to the `time` of that `Start`. Such a `Stop`
exists (the same pitch on slot `c`), and `KillAll` always frees the slot. -/
theorem C10_freed_slot_keeps_start_time (s s1 : PolyphonyScheduler)
    (time pitch amount voiceIdx : Int) (m : ModulationParameters) (c : Nat)
    (hstart : Start s time pitch amount voiceIdx m
      = some (s1, [ReceiverCall.StartVoice c time pitch amount m])) :
    s1.mVoices[c]? = some ⟨floatOfInt pitch, time, true⟩ ∧
    (pitch.natAbs ≤ 16777216 → s1.mVoices[c]? = some ⟨pitch, time, true⟩) ∧
    (∀ t1 : Int, ∃ s2 : PolyphonyScheduler,
      Stop s1 t1 pitch (c : Int) = some (s2, [ReceiverCall.StopVoice c (-1) time]) ∧
      s2.mVoices[c]? = some ⟨-1, time, false⟩) ∧
    (∀ (t1 p1 v1 : Int) (s2 : PolyphonyScheduler) (x y : Int),
      Stop s1 t1 p1 v1 = some (s2, [ReceiverCall.StopVoice c x y]) →
      s2.mVoices[c]? = some ⟨-1, time, false⟩) ∧
    (∃ (s2 : PolyphonyScheduler) (calls : List ReceiverCall),
      KillAll s1 = some (s2, calls) ∧ ReceiverCall.StopVoice c (-1) time ∈ calls ∧
      s2.mVoices[c]? = some ⟨-1, time, false⟩) := by
  have hslot : s1.mVoices[c]? = some ⟨floatOfInt pitch, time, true⟩
      ∧ c < s1.mVoices.length := by
    rcases Start_inv hstart with ⟨_, h2, _⟩ | ⟨r, hr, _, h1, h2⟩
    · cases h2
    · simp only [List.cons.injEq, ReceiverCall.StartVoice.injEq, and_true, true_and] at h2
      subst h2
      subst h1
      simp [List.getElem?_set_self hr, hr]
  obtain ⟨hc, hcl⟩ := hslot
  refine ⟨hc, ?_, ?_, ?_, ?_⟩
  · intro hsmall
    rw [← floatOfInt_of_le hsmall]
    exact hc
  · intro t1
    refine ⟨_, stop_explicit s1 t1 pitch c _ hc rfl rfl, ?_⟩
    simp [List.getElem?_set_self hcl]
  · intro t1 p1 v1 s2 x y h
    rcases Stop_inv h with ⟨_, h2⟩ | ⟨r, vr, hr, hvr, _, _, _, h1, h2⟩
    · cases h2
    · simp only [List.cons.injEq, ReceiverCall.StopVoice.injEq, and_true] at h2
      obtain ⟨hrc, _, _⟩ := h2
      subst hrc
      rw [hc] at hvr
      cases hvr
      rw [h1]
      simp [List.getElem?_set_self hr]
  · refine ⟨_, _, killAll_spec s1, ?_, ?_⟩
    · rw [List.mem_filterMap]
      exact ⟨c, List.mem_range.mpr hcl, by simp [stopCallAt, hc]⟩
    · simp [hc, killSlot]

/-- C10 as stated fails: a slot started at time 5 and then freed by `Stop` (or by `KillAll`)
holds `{-1, 5, false}`, while a never-used slot holds `{-1, 0, false}`. -/
theorem C10_counterexample :
    run (init 1) [.start 5 60 100 (-1) 0, .stop 6 60 (-1)]
      = some (⟨[⟨-1, 5, false⟩], true, 0, 1⟩,
          [ReceiverCall.StartVoice 0 5 60 100 0, ReceiverCall.StopVoice 0 (-1) 5]) ∧
    run (init 1) [.start 5 60 100 (-1) 0, .killAll]
      = some (⟨[⟨-1, 5, false⟩], true, 0, 1⟩,
          [ReceiverCall.StartVoice 0 5 60 100 0, ReceiverCall.StopVoice 0 (-1) 5]) ∧
    (init 1).mVoices[0]? = some ⟨-1, 0, false⟩ ∧
    (⟨-1, 5, false⟩ : SchedVoiceInfo) ≠ ⟨-1, 0, false⟩ := by
  refine ⟨by decide, by decide, by decide, by decide⟩

/-- The freed-slot statement for one slot started at time 5 with pitch 60. -/
theorem C10_freed_slot_keeps_start_time_witness :
    Start (init 1) 5 60 100 (-1) 0
      = some (⟨[⟨60, 5, true⟩], true, 0, 1⟩, [ReceiverCall.StartVoice 0 5 60 100 0]) ∧
    ((⟨[⟨60, 5, true⟩], true, 0, 1⟩ : PolyphonyScheduler).mVoices[0]?
      = some ⟨floatOfInt 60, 5, true⟩ ∧
    ((60 : Int).natAbs ≤ 16777216 →
      (⟨[⟨60, 5, true⟩], true, 0, 1⟩ : PolyphonyScheduler).mVoices[0]? = some ⟨60, 5, true⟩) ∧
    (∀ t1 : Int, ∃ s2 : PolyphonyScheduler,
      Stop ⟨[⟨60, 5, true⟩], true, 0, 1⟩ t1 60 ((0 : Nat) : Int)
        = some (s2, [ReceiverCall.StopVoice 0 (-1) 5]) ∧
      s2.mVoices[0]? = some ⟨-1, 5, false⟩) ∧
    (∀ (t1 p1 v1 : Int) (s2 : PolyphonyScheduler) (x y : Int),
      Stop ⟨[⟨60, 5, true⟩], true, 0, 1⟩ t1 p1 v1 = some (s2, [ReceiverCall.StopVoice 0 x y]) →
      s2.mVoices[0]? = some ⟨-1, 5, false⟩) ∧
    (∃ (s2 : PolyphonyScheduler) (calls : List ReceiverCall),
      KillAll ⟨[⟨60, 5, true⟩], true, 0, 1⟩ = some (s2, calls) ∧
      ReceiverCall.StopVoice 0 (-1) 5 ∈ calls ∧
      s2.mVoices[0]? = some ⟨-1, 5, false⟩)) :=
  ⟨by decide,
    C10_freed_slot_keeps_start_time (init 1) ⟨[⟨60, 5, true⟩], true, 0, 1⟩ 5 60 100 (-1) 0 0
      (by decide)⟩

/-! ## The slot-state invariant -/

theorem step_noteOnOccupied {s s1 : PolyphonyScheduler} {op : Op} {c : List ReceiverCall}
    (hop : ∀ (time pitch amount voiceIdx : Int) (modulation : ModulationParameters),
      op = Op.start time pitch amount voiceIdx modulation → pitch ≠ -1)
    (hs : NoteOnOccupied s) (h : step s op = some (s1, c)) : NoteOnOccupied s1 := by
  cases op with
  | start time pitch amount voiceIdx modulation =>
    have hp : pitch ≠ -1 := hop time pitch amount voiceIdx modulation rfl
    rcases Start_inv h with ⟨h1, _⟩ | ⟨r, hr, _, h1, _⟩
    · rw [h1]
      exact hs
    · subst h1
      intro j v hv hn
      by_cases hj : r = j
      · subst hj
        simp only [List.getElem?_set_self hr, Option.some.injEq] at hv
        rw [← hv]
        exact fun hf => hp ((floatOfInt_eq_neg_one_iff pitch).mp hf)
      · simp only [List.getElem?_set_ne hj] at hv
        exact hs j v hv hn
  | stop time pitch voiceIdx =>
    rcases @Stop_inv s s1 time pitch voiceIdx c h with ⟨h1, _⟩ | ⟨r, vr, hr, _, _, _, _, h1, _⟩
    · rw [h1]
      exact hs
    · subst h1
      intro j v hv hn
      by_cases hj : r = j
      · subst hj
        simp only [List.getElem?_set_self hr, Option.some.injEq] at hv
        rw [← hv] at hn
        cases hn
      · simp only [List.getElem?_set_ne hj] at hv
        exact hs j v hv hn
  | setVoiceLimit limit =>
    simp only [step, SetVoiceLimit, Option.some.injEq, Prod.mk.injEq] at h
    rw [← h.1]
    exact hs
  | killAll =>
    simp only [step, killAll_spec, Option.some.injEq, Prod.mk.injEq] at h
    rw [← h.1]
    intro j w hw hn
    simp only [List.getElem?_map, Option.map_eq_some'] at hw
    obtain ⟨v, hv, hvw⟩ := hw
    unfold killSlot at hvw
    split at hvw
    · rw [← hvw] at hn
      cases hn
    · rw [← hvw]
      rw [← hvw] at hn
      exact hs j v hv hn

theorem noteOnOccupied_init (n : Nat) : NoteOnOccupied (init n) := by
  intro j v hv hn
  simp only [init, List.getElem?_replicate] at hv
  split at hv
  · cases hv
    cases hn
  · cases hv

theorem mem_drawDebug {s : PolyphonyScheduler} {line : (Nat × Nat × Nat) × DebugText}
    (h : line ∈ DrawDebug s) :
    ∃ (i : Nat) (v : SchedVoiceInfo), s.mVoices[i]? = some v ∧
      line = (DrawDebug.color v, DrawDebug.outputLine i v) := by
  unfold DrawDebug at h
  rw [List.mem_filterMap] at h
  obtain ⟨i, _, hi⟩ := h
  simp only [Option.map_eq_some'] at hi
  obtain ⟨v, hv, hl⟩ := hi
  exact ⟨i, v, hv, hl.symm⟩

/-- C14: in every state reached from the constructed scheduler by `Start`, `Stop`,
`SetVoiceLimit` and `KillAll` calls, every slot that is not sounding has pitch `-1`, so
`DrawDebug` never draws a `used: pitch (note off)` line (nor its red colour); and when no
`Start` in the sequence has pitch `-1`, a slot is sounding exactly when its pitch is not `-1`. -/
theorem C14_slot_state_invariant (n : Nat) (ops : List Op) (s : PolyphonyScheduler)
    (calls : List ReceiverCall) (hrun : run (init n) ops = some (s, calls)) :
    (∀ (j : Nat) (v : SchedVoiceInfo), s.mVoices[j]? = some v → v.mNoteOn = false →
      v.mPitch = -1) ∧
    (∀ line ∈ DrawDebug s, line.1 ≠ (255, 0, 0) ∧
      ∀ (i : Nat) (pitch : Int), line.2 ≠ DebugText.used i pitch false) ∧
    (NoFreePitchStart ops →
      ∀ (j : Nat) (v : SchedVoiceInfo), s.mVoices[j]? = some v →
        (v.mNoteOn = true ↔ v.mPitch ≠ -1)) := by
  have hoff : NoteOffFree s := reachable_noteOffFree ⟨ops, calls, hrun⟩
  refine ⟨hoff, ?_, ?_⟩
  · intro line hline
    obtain ⟨i, v, hv, hl⟩ := mem_drawDebug hline
    subst hl
    by_cases hp : v.mPitch = -1
    · constructor
      · simp [DrawDebug.color, hp]
      · intro i1 p1
        simp [DrawDebug.outputLine, hp]
    · have hon : v.mNoteOn = true := by
        cases hn : v.mNoteOn with
        | true => rfl
        | false => exact absurd (hoff i v hv hn) hp
      constructor
      · simp [DrawDebug.color, hp, hon]
      · intro i1 p1
        simp [DrawDebug.outputLine, hp, hon]
  · intro hno j v hv
    have hon : NoteOnOccupied s :=
      run_invariant NoteOnOccupied ops
        (fun t op t1 c hop ht hst =>
          step_noteOnOccupied
            (fun time pitch amount voiceIdx modulation heq =>
              hno time pitch amount voiceIdx modulation (heq ▸ hop))
            ht hst)
        (init n) s calls (noteOnOccupied_init n) hrun
    constructor
    · exact hon j v hv
    · intro hp
      cases hn : v.mNoteOn with
      | true => rfl
      | false => exact absurd (hoff j v hv hn) hp

theorem noFreePitchStart_exStealStopRun : NoFreePitchStart exStealStopRun := by
  intro time pitch amount voiceIdx modulation h
  simp only [exStealStopRun, List.mem_cons, Op.start.injEq, List.mem_singleton, reduceCtorEq,
    or_false, List.not_mem_nil] at h
  rcases h with ⟨_, h, _⟩ | ⟨_, h, _⟩ | ⟨_, h, _⟩ <;> rw [h] <;> decide

/-- The invariant on `exStealStopRun`, which ends with slots `{67, 5, on}` and
`{-1, 2, off}`. -/
theorem C14_slot_state_invariant_witness :
    run (init 2) exStealStopRun
      = some (⟨[⟨67, 5, true⟩, ⟨-1, 2, false⟩], true, 0, 2⟩,
          [ReceiverCall.StartVoice 0 1 60 100 0, ReceiverCall.StartVoice 1 2 62 100 0,
            ReceiverCall.StartVoice 0 5 67 100 0, ReceiverCall.StopVoice 1 (-1) 2]) ∧
    (∀ (j : Nat) (v : SchedVoiceInfo),
      (⟨[⟨67, 5, true⟩, ⟨-1, 2, false⟩], true, 0, 2⟩ : PolyphonyScheduler).mVoices[j]? = some v →
      v.mNoteOn = false → v.mPitch = -1) ∧
    (∀ line ∈ DrawDebug ⟨[⟨67, 5, true⟩, ⟨-1, 2, false⟩], true, 0, 2⟩,
      line.1 ≠ (255, 0, 0) ∧
      ∀ (i : Nat) (pitch : Int), line.2 ≠ DebugText.used i pitch false) ∧
    NoFreePitchStart exStealStopRun ∧
    (∀ (j : Nat) (v : SchedVoiceInfo),
      (⟨[⟨67, 5, true⟩, ⟨-1, 2, false⟩], true, 0, 2⟩ : PolyphonyScheduler).mVoices[j]?
        = some v →
      (v.mNoteOn = true ↔ v.mPitch ≠ -1)) :=
  have h := C14_slot_state_invariant 2 exStealStopRun
    ⟨[⟨67, 5, true⟩, ⟨-1, 2, false⟩], true, 0, 2⟩
    [ReceiverCall.StartVoice 0 1 60 100 0, ReceiverCall.StartVoice 1 2 62 100 0,
      ReceiverCall.StartVoice 0 5 67 100 0, ReceiverCall.StopVoice 1 (-1) 2]
    (by decide)
  ⟨by decide, h.1, h.2.1, noFreePitchStart_exStealStopRun,
    h.2.2 noFreePitchStart_exStealStopRun⟩

end PolyphonyScheduler

namespace PolyphonicContainer

/-! ## The module map of a new voice -/

theorem find_append_of_some {m : ModuleMap} {key x : ModuleRef} (l : ModuleMap)
    (h : m.find key = some x) : ModuleMap.find (m ++ l) key = some x := by
  induction m with
  | nil => cases h
  | cons e rest ih =>
    obtain ⟨k, v⟩ := e
    simp only [List.cons_append, ModuleMap.find] at h ⊢
    split
    · rename_i hk
      simpa [hk] using h
    · rename_i hk
      simp only [hk, if_false] at h
      exact ih h

theorem find_append_of_none {m : ModuleMap} {key : ModuleRef} (l : ModuleMap)
    (h : m.find key = none) : ModuleMap.find (m ++ l) key = ModuleMap.find l key := by
  induction m with
  | nil => rfl
  | cons e rest ih =>
    obtain ⟨k, v⟩ := e
    simp only [List.cons_append, ModuleMap.find] at h ⊢
    split
    · rename_i hk
      simp [hk] at h
    · rename_i hk
      simp only [hk, if_false] at h
      exact ih h

theorem find_eq_none_iff (m : ModuleMap) (key : ModuleRef) :
    m.find key = none ↔ key ∉ m.map Prod.fst := by
  induction m with
  | nil => simp [ModuleMap.find]
  | cons e rest ih =>
    obtain ⟨k, v⟩ := e
    simp only [ModuleMap.find, List.map_cons, List.mem_cons, not_or]
    by_cases hk : k = key
    · simp [hk]
    · simp only [hk, if_false, ih]
      constructor
      · intro h
        exact ⟨fun h1 => hk h1.symm, h⟩
      · intro h
        exact h.2

/-- The map built by the loop: the value under a template module `o` is the one already
stored, or else the first visited module whose path resolves to `o`. -/
theorem mapModules_find (clone : VoiceClone) (o : ModuleRef) :
    ∀ (ms : List ModuleRef) (module_map : ModuleMap) (log : List ContainerEvent),
      (StartVoice.mapModules clone ms module_map log).1.find o =
        match module_map.find o with
        | some x => some x
        | none => ms.find? (fun m => decide (clone.FindModule (clone.Path m) = some o)) := by
  intro ms
  induction ms with
  | nil =>
    intro module_map log
    simp only [StartVoice.mapModules, List.find?_nil]
    cases module_map.find o <;> rfl
  | cons m rest ih =>
    intro module_map log
    unfold StartVoice.mapModules
    simp only
    cases hres : clone.FindModule (clone.Path m) with
    | none =>
      simp only
      rw [ih]
      have hskip : (m :: rest).find? (fun m => decide (clone.FindModule (clone.Path m) = some o))
          = rest.find? (fun m => decide (clone.FindModule (clone.Path m) = some o)) := by
        simp [List.find?_cons, hres]
      rw [hskip]
    | some original =>
      simp only
      unfold ModuleMap.try_emplace
      cases hfind : module_map.find original with
      | some y =>
        simp only [if_true]
        rw [ih]
        cases ho : module_map.find o with
        | some x => rfl
        | none =>
          have hne : original ≠ o := by
            intro h
            rw [h, ho] at hfind
            cases hfind
          have hskip : (m :: rest).find?
              (fun m => decide (clone.FindModule (clone.Path m) = some o))
              = rest.find? (fun m => decide (clone.FindModule (clone.Path m) = some o)) := by
            simp [List.find?_cons, hres, hne]
          rw [hskip]
      | none =>
        simp only [Bool.true_eq_false, if_false]
        rw [ih]
        cases ho : module_map.find o with
        | some x =>
          rw [find_append_of_some _ ho]
        | none =>
          rw [find_append_of_none _ ho]
          by_cases heq : original = o
          · subst heq
            simp [List.find?_cons, hres, ModuleMap.find]
          · simp [List.find?_cons, hres, ModuleMap.find, heq]

theorem mapModules_nodup (clone : VoiceClone) :
    ∀ (ms : List ModuleRef) (module_map : ModuleMap) (log : List ContainerEvent),
      (module_map.map Prod.fst).Nodup →
      ((StartVoice.mapModules clone ms module_map log).1.map Prod.fst).Nodup := by
  intro ms
  induction ms with
  | nil =>
    intro module_map log h
    exact h
  | cons m rest ih =>
    intro module_map log h
    unfold StartVoice.mapModules
    simp only
    cases hres : clone.FindModule (clone.Path m) with
    | none => exact ih _ _ h
    | some original =>
      simp only
      unfold ModuleMap.try_emplace
      cases hfind : module_map.find original with
      | some y =>
        simp only [if_true]
        exact ih _ _ h
      | none =>
        simp only [Bool.true_eq_false, if_false]
        apply ih
        rw [List.map_append, List.nodup_append]
        refine ⟨h, by simp, ?_⟩
        intro a ha hb
        simp only [List.map_cons, List.map_nil, List.mem_singleton] at hb
        subst hb
        exact (find_eq_none_iff module_map a).mp hfind ha

theorem find_iff_mem {m : ModuleMap} (h : (m.map Prod.fst).Nodup) (o v : ModuleRef) :
    m.find o = some v ↔ (o, v) ∈ m := by
  induction m with
  | nil => simp [ModuleMap.find]
  | cons e rest ih =>
    obtain ⟨k, w⟩ := e
    simp only [List.map_cons, List.nodup_cons] at h
    simp only [ModuleMap.find, List.mem_cons, Prod.mk.injEq]
    by_cases hk : k = o
    · subst hk
      rw [if_pos rfl]
      constructor
      · intro hw
        simp only [Option.some.injEq] at hw
        exact Or.inl ⟨rfl, hw.symm⟩
      · rintro (⟨_, hw⟩ | hmem)
        · rw [hw]
        · exact absurd (List.mem_map_of_mem Prod.fst hmem) h.1
    · simp only [hk, if_false, ih h.2]
      constructor
      · intro hmem
        exact Or.inr hmem
      · rintro (⟨ho, _⟩ | hmem)
        · exact absurd ho.symm hk
        · exact hmem

/-- `StartVoice` on a slot inside the array, in closed form. -/
theorem startVoice_spec (c : PolyphonicContainer) (clone : VoiceClone) (voiceId : Nat)
    (time pitch amount : Int) (modulations : ModulationParameters)
    (hv : voiceId < c.kNumVoices) :
    ∃ events, StartVoice c clone voiceId time pitch amount modulations =
      some ({ c with
              mChildren := AddChild c.mChildren c.nextAddr
              mVoices := c.mVoices.set voiceId (some
                ⟨c.nextAddr, voiceId, clone.allModules,
                  StartVoice.repatch (StartVoice.mapModules clone clone.allModules [] []).1
                    c.mVoiceNoteCable [],
                  (StartVoice.mapModules clone clone.allModules [] []).1⟩)
              nextAddr := c.nextAddr + 1 }, events) := by
  have hlen : voiceId < c.mVoices.length := hv
  unfold StartVoice
  rw [List.getElem?_eq_getElem hlen]
  exact ⟨_, rfl⟩

/-- C12: for every list of clone modules and every path resolution into the template,
`StartVoice` returns and the map of the new instance has unique keys, a key for every template
module that some clone module's path resolves to, only entries `o -> m` with `m` a clone module
whose path resolves to `o`, no two keys with the same clone module, and no entry for a clone
module whose path does not resolve. -/
theorem C12_identity_map_is_bijection (c : PolyphonicContainer) (clone : VoiceClone)
    (voiceId : Nat) (time pitch amount : Int) (modulations : ModulationParameters)
    (hv : voiceId < c.kNumVoices) :
    ∃ (c1 : PolyphonicContainer) (events : List ContainerEvent)
      (voice : PolyphonicVoiceContainer),
      StartVoice c clone voiceId time pitch amount modulations = some (c1, events) ∧
      c1.mVoices[voiceId]? = some (some voice) ∧
      (voice.module_map.map Prod.fst).Nodup ∧
      (∀ o : ModuleRef, (∃ m ∈ clone.allModules, clone.FindModule (clone.Path m) = some o) →
        ∃ m, voice.module_map.find o = some m) ∧
      (∀ o m : ModuleRef, voice.module_map.find o = some m →
        m ∈ clone.allModules ∧ clone.FindModule (clone.Path m) = some o) ∧
      (∀ o1 o2 m : ModuleRef, voice.module_map.find o1 = some m →
        voice.module_map.find o2 = some m → o1 = o2) ∧
      (∀ m ∈ clone.allModules, clone.FindModule (clone.Path m) = none →
        ∀ o : ModuleRef, voice.module_map.find o ≠ some m) := by
  have hlen : voiceId < c.mVoices.length := hv
  obtain ⟨events, hstart⟩ := startVoice_spec c clone voiceId time pitch amount modulations hv
  have hfind : ∀ o : ModuleRef,
      (StartVoice.mapModules clone clone.allModules [] []).1.find o
        = clone.allModules.find? (fun m => decide (clone.FindModule (clone.Path m) = some o)) := by
    intro o
    rw [mapModules_find]
    rfl
  have hentry : ∀ o m : ModuleRef,
      (StartVoice.mapModules clone clone.allModules [] []).1.find o = some m →
      m ∈ clone.allModules ∧ clone.FindModule (clone.Path m) = some o := by
    intro o m h
    rw [hfind] at h
    refine ⟨List.mem_of_find?_eq_some h, ?_⟩
    have := List.find?_some h
    simpa using this
  refine ⟨_, events,
    (⟨c.nextAddr, voiceId, clone.allModules,
      StartVoice.repatch (StartVoice.mapModules clone clone.allModules [] []).1
        c.mVoiceNoteCable [],
      (StartVoice.mapModules clone clone.allModules [] []).1⟩ : PolyphonicVoiceContainer),
    hstart, by simp [List.getElem?_set_self hlen], ?_, ?_, hentry, ?_, ?_⟩
  · exact mapModules_nodup clone clone.allModules [] [] (by simp)
  · rintro o ⟨m, hm, hres⟩
    simp only [hfind]
    cases hf : clone.allModules.find?
        (fun m => decide (clone.FindModule (clone.Path m) = some o)) with
    | some x => exact ⟨x, rfl⟩
    | none =>
      rw [List.find?_eq_none] at hf
      have := hf m hm
      simp [hres] at this
  · intro o1 o2 m h1 h2
    have e1 := (hentry o1 m h1).2
    have e2 := (hentry o2 m h2).2
    rw [e1] at e2
    exact Option.some.inj e2
  · intro m _ hres o h
    have := (hentry o m h).2
    rw [hres] at this
    cases this

/-- The map statement for `exContainer` and the copy `exClone`, whose module 23 does not
resolve. -/
theorem C12_identity_map_is_bijection_witness :
    0 < exContainer.kNumVoices ∧
    ∃ (c1 : PolyphonicContainer) (events : List ContainerEvent)
      (voice : PolyphonicVoiceContainer),
      StartVoice exContainer exClone 0 5 60 100 0 = some (c1, events) ∧
      c1.mVoices[0]? = some (some voice) ∧
      (voice.module_map.map Prod.fst).Nodup ∧
      (∀ o : ModuleRef,
        (∃ m ∈ exClone.allModules, exClone.FindModule (exClone.Path m) = some o) →
        ∃ m, voice.module_map.find o = some m) ∧
      (∀ o m : ModuleRef, voice.module_map.find o = some m →
        m ∈ exClone.allModules ∧ exClone.FindModule (exClone.Path m) = some o) ∧
      (∀ o1 o2 m : ModuleRef, voice.module_map.find o1 = some m →
        voice.module_map.find o2 = some m → o1 = o2) ∧
      (∀ m ∈ exClone.allModules, exClone.FindModule (exClone.Path m) = none →
        ∀ o : ModuleRef, voice.module_map.find o ≠ some m) :=
  ⟨by decide, C12_identity_map_is_bijection exContainer exClone 0 5 60 100 0 (by decide)⟩

/-! ## Repatching the note source -/

theorem repatch_eq (module_map : ModuleMap) :
    ∀ (cables : List (Option ModuleRef)) (source : List ModuleRef),
      StartVoice.repatch module_map cables source
        = source ++ cables.filterMap (fun target => target.bind module_map.find) := by
  intro cables
  induction cables with
  | nil =>
    intro source
    simp [StartVoice.repatch]
  | cons target rest ih =>
    intro source
    unfold StartVoice.repatch
    cases h : target.bind module_map.find with
    | none =>
      simp only
      rw [ih, List.filterMap_cons, h]
    | some mapped =>
      simp only
      rw [ih, List.filterMap_cons, h]
      simp [AddPatchCable]

/-- C11: the repatch loop, for every map and every template cable list, appends to the voice's
own source one cable per template cable whose target is a key of the map, to the mapped module
and in template order, and nothing for the other cables; `StartVoice` leaves the cable list of
`mVoiceNoteCable` as it was, and the new instance's source, which starts empty, holds exactly
those cables. -/
theorem C11_remap_leaves_template_cables (c : PolyphonicContainer) (clone : VoiceClone)
    (voiceId : Nat) (time pitch amount : Int) (modulations : ModulationParameters)
    (hv : voiceId < c.kNumVoices) :
    (∀ (module_map : ModuleMap) (cables : List (Option ModuleRef)) (source : List ModuleRef),
      StartVoice.repatch module_map cables source
        = source ++ cables.filterMap (fun target => target.bind module_map.find)) ∧
    ∃ (c1 : PolyphonicContainer) (events : List ContainerEvent)
      (voice : PolyphonicVoiceContainer),
      StartVoice c clone voiceId time pitch amount modulations = some (c1, events) ∧
      c1.mVoiceNoteCable = c.mVoiceNoteCable ∧
      c1.mVoices[voiceId]? = some (some voice) ∧
      voice.source
        = c.mVoiceNoteCable.filterMap (fun target => target.bind voice.module_map.find) := by
  have hlen : voiceId < c.mVoices.length := hv
  obtain ⟨events, hstart⟩ := startVoice_spec c clone voiceId time pitch amount modulations hv
  refine ⟨repatch_eq, _, events,
    (⟨c.nextAddr, voiceId, clone.allModules,
      StartVoice.repatch (StartVoice.mapModules clone clone.allModules [] []).1
        c.mVoiceNoteCable [],
      (StartVoice.mapModules clone clone.allModules [] []).1⟩ : PolyphonicVoiceContainer),
    hstart, rfl, by simp [List.getElem?_set_self hlen], ?_⟩
  simp [repatch_eq]

/-- The repatch statement for `exContainer` and `exClone`: cables to template modules 12, 10,
to module 15 outside the template and to a non-module give the voice cables to 22 and 20. -/
theorem C11_remap_leaves_template_cables_witness :
    0 < exContainer.kNumVoices ∧
    ∃ (c1 : PolyphonicContainer) (events : List ContainerEvent)
      (voice : PolyphonicVoiceContainer),
      StartVoice exContainer exClone 0 5 60 100 0 = some (c1, events) ∧
      c1.mVoiceNoteCable = exContainer.mVoiceNoteCable ∧
      c1.mVoices[0]? = some (some voice) ∧
      voice.source
        = exContainer.mVoiceNoteCable.filterMap
            (fun target => target.bind voice.module_map.find) :=
  ⟨by decide,
    (C11_remap_leaves_template_cables exContainer exClone 0 5 60 100 0 (by decide)).2⟩

/-! ## Replacing the instance of a slot -/

/-- `StartVoice` on a slot that holds an instance: the old instance is destroyed, but it stays
among the children and its container is not cleared. -/
theorem startVoice_keeps_previous_child (c : PolyphonicContainer) (clone : VoiceClone)
    (voiceId : Nat) (time pitch amount : Int) (modulations : ModulationParameters)
    (old : PolyphonicVoiceContainer) (hold : c.mVoices[voiceId]? = some (some old))
    (hchild : old.addr ∈ c.mChildren) :
    ∃ (c1 : PolyphonicContainer) (events : List ContainerEvent),
      StartVoice c clone voiceId time pitch amount modulations = some (c1, events) ∧
      old.addr ∈ c1.mChildren ∧ c.nextAddr ∈ c1.mChildren ∧
      ContainerEvent.Clear old.addr ∉ events := by
  have hlog : ∀ (ms : List ModuleRef) (module_map : ModuleMap) (log : List ContainerEvent),
      ContainerEvent.Clear old.addr ∉ log →
      ContainerEvent.Clear old.addr ∉ (StartVoice.mapModules clone ms module_map log).2 := by
    intro ms
    induction ms with
    | nil =>
      intro module_map log h
      exact h
    | cons m rest ih =>
      intro module_map log h
      unfold StartVoice.mapModules
      simp only
      split
      · exact ih _ _ (by simpa using h)
      · split
        · exact ih _ _ (by simpa using h)
        · exact ih _ _ h
  unfold StartVoice
  rw [hold]
  refine ⟨_, _, rfl, ?_, ?_, ?_⟩
  · simp [AddChild, hchild]
  · simp [AddChild]
  · have := hlog clone.allModules [] [] (by simp)
    simp [this]

/-- C13 fails on the code. `StartVoice` on slot 0 of `exOccupied`, which holds the instance at
address 0, stores the new instance (address 1) in the slot and destroys the old one, but the
children are then `[0, 1]` and no `Clear` is made; `StopVoice` followed by the same `StartVoice`
ends with children `[1]`, after `Clear` of the old instance. -/
theorem C13_replacement_keeps_old_child :
    StartVoice exContainer exClone 0 5 60 100 0
      = some (exOccupied,
          [ContainerEvent.LogCouldntFind 7, ContainerEvent.PlayNoteOutput 0 5 60 100 0 0]) ∧
    StartVoice exOccupied exClone2 0 6 62 100 0
      = some (⟨[0, 1], [some 12, some 10, some 15, none],
            [some ⟨1, 0, [30, 31, 32, 33], [32, 30], [(10, 30), (11, 31), (12, 32)]⟩], 2⟩,
          [ContainerEvent.Delete 0, ContainerEvent.LogCouldntFind 7,
            ContainerEvent.PlayNoteOutput 1 6 62 100 0 0]) ∧
    StopVoice exOccupied 0 (-1) 5
      = some (⟨[], [some 12, some 10, some 15, none], [none], 1⟩,
          [ContainerEvent.Clear 0, ContainerEvent.Delete 0]) ∧
    StartVoice ⟨[], [some 12, some 10, some 15, none], [none], 1⟩ exClone2 0 6 62 100 0
      = some (⟨[1], [some 12, some 10, some 15, none],
            [some ⟨1, 0, [30, 31, 32, 33], [32, 30], [(10, 30), (11, 31), (12, 32)]⟩], 2⟩,
          [ContainerEvent.LogCouldntFind 7, ContainerEvent.PlayNoteOutput 1 6 62 100 0 0]) := by
  refine ⟨by decide, by decide, by decide, by decide⟩

end PolyphonicContainer
